import Mathlib

/-!
A verification development for the AnnotateMD pattern-matching engine
(annotatemd.ts, final evolution): a shallow embedding of the data model
(DOM nodes, match accumulators, patterns), the incremental per-node
matching automaton with its precondition short circuits, the composite
combinators (sequence, negation, subtree exclusion), and the depth-first
traversal orchestrator with its working set, kill loop and lookahead
retry.  JS object identity of accumulators is modelled by allocating them
in an explicit store indexed by Nat ids; JS mutation is modelled by
explicit state passing.
-/

namespace AnnotateMD

/-- Response vocabulary returned by every pattern operation
(source: enum PatternMatchResponse). -/
inductive PatternMatchResponse where
  | Matching
  | NonMatching
  | Incomplete
  | Completed
  | Break
  | Unapplied
deriving DecidableEq, Repr

/-- External DOM node (consumed, not owned): authored tag, class string and
children.  The DOM exposes the tag through tagName, upper-cased for HTML
elements. -/
structure DomNode where
  tag : String
  className : String
  children : List DomNode

/-- ASCII upper-casing over the character list (what JS toUpperCase and the
DOM tagName normalization do on the ASCII tag names this engine sees). -/
def strUpper (s : String) : String := ⟨s.data.map Char.toUpper⟩

/-- HTML DOM tagName convention: the authored tag, upper-cased. -/
def DomNode.tagName (n : DomNode) : String := strUpper n.tag

/-- An entry of an accumulator node list: a raw DOM node or a nested
accumulator referenced by its store id (source: Array of Element or Node or
PatternMatch; AnyPattern pre-seeds its wrapper with its options' matches,
and an option with handling disabled contributes the JS null that
sub none models). -/
inductive MatchItem where
  | node : DomNode → MatchItem
  | sub : Option Nat → MatchItem

/-- Accumulator record (source: class PatternMatch).  parent is the index of
the owning top-level pattern, standing in for the JS back reference to the
owning Pattern object (the only accumulators the orchestrator ever handles
belong to top-level patterns). -/
structure PatternMatch where
  nodes : List MatchItem
  complete : Bool
  parent : Nat

/-- source: PatternMatch.push. -/
def PatternMatch.push (m : PatternMatch) (it : MatchItem) : PatternMatch :=
  { m with nodes := m.nodes ++ [it] }

/-- source: PatternMatch.finalize — present in the source but never invoked
by the engine. -/
def PatternMatch.finalize (m : PatternMatch) : PatternMatch :=
  { m with complete := true }

/-- source: PatternMatch.unfinished. -/
def PatternMatch.unfinished (m : PatternMatch) : Bool :=
  decide (0 < m.nodes.length) && !m.complete

/-- Allocation store for accumulators: ids are positions, in allocation
order.  This models JS object identity (two accumulators are the same
object exactly when they have the same id). -/
structure Store where
  data : List PatternMatch

def Store.get (s : Store) (i : Nat) : Option PatternMatch := s.data.get? i

/-- Allocate a fresh empty open accumulator owned by pattern parent
(source: new PatternMatch(this)). -/
def Store.alloc (s : Store) (parent : Nat) : Nat × Store :=
  (s.data.length, ⟨s.data ++ [⟨[], false, parent⟩]⟩)

/-- Allocate a fresh open accumulator pre-seeded with the given node list
(source: new PatternMatch(this, nodes), as AnyPattern uses it). -/
def Store.allocWith (s : Store) (nodes : List MatchItem) (parent : Nat) :
    Nat × Store :=
  (s.data.length, ⟨s.data ++ [⟨nodes, false, parent⟩]⟩)

def listModify : List PatternMatch → Nat → (PatternMatch → PatternMatch) → List PatternMatch
  | [], _, _ => []
  | m :: rest, 0, f => f m :: rest
  | m :: rest, i + 1, f => m :: listModify rest i f

/-- Append a raw node to the accumulator with id i (source: this.match.push(node)). -/
def Store.pushNode (s : Store) (i : Nat) (n : DomNode) : Store :=
  ⟨listModify s.data i (fun pm => pm.push (MatchItem.node n))⟩

/-- Frozen per-pattern configuration (source: the options object of the
Pattern constructor).  transform is an opaque callback id (none = null). -/
structure PatternConfig where
  priority : Int
  compounds : Bool
  terminal : Bool
  open_ended : Bool
  depth : Int
  absolute_depth : Int
  applications : Int
  manage_match : Bool
  transform : Option Nat

/-- Mutable base-class state of a pattern.  cur_depth is an Option Int:
some d models a JS number (the initial value is some (-1)), none models the
JS undefined that is written when a pattern matches at an undefined depth
(IgnoredPattern offers nodes to its child with no depth argument).
matchId is the id of the live accumulator (none = null, i.e. handling
disabled). -/
structure PatternState where
  cur_depth : Option Int
  applied : Int
  matchId : Option Nat

/-- The pattern combinators the engine builds (source classes SimplePattern
(with TagPattern and ClassPattern as configurations), SequencePattern,
IgnoredPattern, ExceptPattern, AnyPattern).  Each constructor carries the
frozen configuration, the mutable base state and its own fields;
SequencePattern additionally carries its cursor cur and per-child repeat
counter cur_counts.  AnyPattern (the union) is carried because its reset
override deviates from the base reset; the remaining source classes
AllPattern and PatternTest inherit the base reset unchanged and their
matchers delegate to their children like the embedded combinators, so
simple stands in for their reset behaviour. -/
inductive Pattern where
  | simple (cfg : PatternConfig) (st : PatternState)
      (field_name : String) (field_options : List String) (exact : Bool) (all : Bool)
  | sequence (cfg : PatternConfig) (st : PatternState)
      (patterns : List Pattern) (repeats : List (Int × Int)) (cur : Nat) (cur_counts : Int)
  | ignored (cfg : PatternConfig) (st : PatternState) (pattern : Pattern)
  | exceptPat (cfg : PatternConfig) (st : PatternState)
      (musnt_match : Pattern) (must_match : Option Pattern)
  | anyPat (cfg : PatternConfig) (st : PatternState) (patterns : List Pattern)

def Pattern.cfg : Pattern → PatternConfig
  | .simple c _ _ _ _ _ => c
  | .sequence c _ _ _ _ _ => c
  | .ignored c _ _ => c
  | .exceptPat c _ _ _ => c
  | .anyPat c _ _ => c

def Pattern.st : Pattern → PatternState
  | .simple _ s _ _ _ _ => s
  | .sequence _ s _ _ _ _ => s
  | .ignored _ s _ => s
  | .exceptPat _ s _ _ => s
  | .anyPat _ s _ => s

/-- Replace the mutable base state, leaving everything else in place. -/
def Pattern.setSt : Pattern → PatternState → Pattern
  | .simple c _ a b d e, s => .simple c s a b d e
  | .sequence c _ pats reps cur counts, s => .sequence c s pats reps cur counts
  | .ignored c _ pat, s => .ignored c s pat
  | .exceptPat c _ m mm, s => .exceptPat c s m mm
  | .anyPat c _ pats, s => .anyPat c s pats

/-- Whether the pattern is the union combinator (the one reset override
that deviates from the base reset). -/
def Pattern.isAny : Pattern → Bool
  | .anyPat _ _ _ => true
  | _ => false

/-- The cursor of a sequence pattern (0 for other kinds); used to observe
SequencePattern.cur in theorem statements. -/
def Pattern.seqCur : Pattern → Nat
  | .sequence _ _ _ _ cur _ => cur
  | _ => 0

/-- The per-child repeat counter of a sequence pattern (0 for other kinds). -/
def Pattern.seqCounts : Pattern → Int
  | .sequence _ _ _ _ _ counts => counts
  | _ => 0

/-- JS element[field_name] for the two field names the engine uses
(tagName, className).  Any other name yields undefined in the source and
crashes on the comparison; modelled by the empty string (unreachable for
the engine-built patterns). -/
def getField (n : DomNode) : String → String
  | "tagName" => n.tagName
  | "className" => n.className
  | _ => ""

def listPrefixOf : List Char → List Char → Bool
  | [], _ => true
  | _ :: _, [] => false
  | a :: as, b :: bs => a = b && listPrefixOf as bs

/-- JS cname.indexOf(c) !== -1: c occurs as a contiguous substring of
cname (the empty needle always occurs). -/
def strIncludes (hay needle : String) : Bool :=
  go needle.data hay.data
where
  go (needle : List Char) : List Char → Bool
    | [] => listPrefixOf needle []
    | b :: bs => listPrefixOf needle (b :: bs) || go needle bs

/-- One option comparison of SimplePattern.match_field: equality when exact,
substring containment otherwise. -/
def fieldTest (exact : Bool) (cname c : String) : Bool :=
  if exact then cname == c else strIncludes cname c

/-- The any-quantifier loop of match_field: response starts NonMatching and
becomes Matching at the first option that satisfies the comparison (early
exit). -/
def matchAnyOption (cname : String) : List String → Bool → PatternMatchResponse
  | [], _ => .NonMatching
  | c :: rest, exact =>
      if fieldTest exact cname c then .Matching else matchAnyOption cname rest exact

/-- The all-quantifier loop of match_field: response starts Matching and
becomes NonMatching at the first option that fails the comparison (early
exit). -/
def matchAllOptions (cname : String) : List String → Bool → PatternMatchResponse
  | [], _ => .Matching
  | c :: rest, exact =>
      if !(fieldTest exact cname c) then .NonMatching else matchAllOptions cname rest exact

/-- source: SimplePattern.match_field — compare the selected field of the
element against the configured options under the exact and all toggles. -/
def SimplePattern.match_field (element : DomNode) (field_name : String)
    (field_options : List String) (exact : Bool) (all : Bool) : PatternMatchResponse :=
  let cname := getField element field_name
  if !all then matchAnyOption cname field_options exact
  else matchAllOptions cname field_options exact

/-- Response mapping of IgnoredPattern.match_ignore: Incomplete, Break and
Matching from the child are upgraded to Break; everything else passes
through. -/
def ignoreMap : PatternMatchResponse → PatternMatchResponse
  | .Incomplete => .Break
  | .Break => .Break
  | .Matching => .Break
  | r => r

/-- Response mapping of ExceptPattern.match_execpt: Matching and Completed
become NonMatching, NonMatching becomes Matching, everything else passes
through. -/
def exceptMap : PatternMatchResponse → PatternMatchResponse
  | .Matching => .NonMatching
  | .Completed => .NonMatching
  | .NonMatching => .Matching
  | r => r

/-- JS a < b where b may be undefined: any comparison against undefined is
false. -/
def jsLtOpt (a : Int) : Option Int → Bool
  | some b => decide (a < b)
  | none => false

/-- JS depth - cur > w where depth or cur may be undefined (NaN comparisons
are false). -/
def jsWindowExceeded (depth cur : Option Int) (w : Int) : Bool :=
  match depth, cur with
  | some d, some c => decide (d - c > w)
  | _, _ => false

/-- JS cur >= 0 where cur may be undefined. -/
def curDepthNonneg : Option Int → Bool
  | some c => decide (0 ≤ c)
  | none => false

/-- The three precondition short circuits of Pattern.matches, in source
order: absolute depth ceiling exceeded, application cap reached, relative
depth window exceeded.  Each one returns Unapplied without running the
matcher, so their disjunction characterises the early return. -/
def Pattern.unappliedShortCircuit (p : Pattern) (depth : Option Int) : Bool :=
  (decide (0 ≤ p.cfg.absolute_depth) && jsLtOpt p.cfg.absolute_depth depth) ||
  (decide (0 ≤ p.cfg.applications) && decide (p.cfg.applications ≤ p.st.applied)) ||
  (curDepthNonneg p.st.cur_depth && decide (0 ≤ p.cfg.depth) &&
    jsWindowExceeded depth p.st.cur_depth p.cfg.depth)

/-- Bookkeeping of Pattern.matches after the matcher has run: on Matching or
Incomplete the anchor depth is recorded when still unset (the JS test is
_cur_depth === -1), Matching additionally increments the applications-used
counter, and the node is pushed onto the live accumulator (a no-op when
handling is disabled). -/
def Pattern.postMatch (matched : PatternMatchResponse) (p1 : Pattern)
    (node : DomNode) (depth : Option Int) (s1 : Store) :
    PatternMatchResponse × Pattern × Store :=
  if matched = .Matching ∨ matched = .Incomplete then
    let st1 := p1.st
    let st2 : PatternState :=
      { cur_depth := if st1.cur_depth = some (-1) then depth else st1.cur_depth,
        applied := if matched = .Matching then st1.applied + 1 else st1.applied,
        matchId := st1.matchId }
    let p2 := p1.setSt st2
    let s2 := match st2.matchId with
      | some i => s1.pushNode i node
      | none => s1
    (matched, p2, s2)
  else (matched, p1, s1)

/-- The min and max repeat bounds of the child at the cursor, read off the
repeats suffix aligned with the child suffix (source: repeats[cur][0] and
repeats[cur][repeats[cur].length - 1]).  A missing entry is a configuration
error the source crashes on; the default here is unreachable for valid
configurations. -/
def repBounds : List (Int × Int) → Int × Int
  | [] => (1, 1)
  | b :: _ => b

mutual

/-- source: Pattern.matches(node, depth) — the precondition short circuits,
then the kind-specific matcher, then the bookkeeping on the returned
response.  depth is an Option Int because IgnoredPattern calls the child
with an undefined depth.  The fuel argument only bounds the recursion depth
so that the definition is structural (and hence computable by the kernel);
Pattern.matches below instantiates a budget that the mutual recursion,
which strictly descends into subpatterns, never exhausts. -/
def Pattern.matchesN : Nat → Pattern → DomNode → Option Int → Store →
    PatternMatchResponse × Pattern × Store
  | 0, p, _, _, s => (.Unapplied, p, s)
  | fuel + 1, p, node, depth, s =>
      if p.unappliedShortCircuit depth then (.Unapplied, p, s)
      else
        let r := Pattern.runMatcherN fuel p node depth s
        Pattern.postMatch r.1 r.2.1 node depth r.2.2

/-- Dispatch to the matcher callback each source constructor installs. -/
def Pattern.runMatcherN : Nat → Pattern → DomNode → Option Int → Store →
    PatternMatchResponse × Pattern × Store
  | 0, p, _, _, s => (.Unapplied, p, s)
  | fuel + 1, p, node, depth, s =>
      match p with
      | .simple cfg st fname fopts exact all =>
          (SimplePattern.match_field node fname fopts exact all,
            .simple cfg st fname fopts exact all, s)
      | .sequence cfg st pats reps cur counts =>
          -- SequencePattern.match_seq: delegate to the child at the cursor.
          -- The cursor view is the suffix pats.drop cur (see seqAuxN); the
          -- updated children are written back and the cursor advanced by the
          -- number of inc_pattern steps taken.
          let r := Pattern.seqAuxN fuel (pats.drop cur) (reps.drop cur) counts node depth s
          (r.1, .sequence cfg st (pats.take cur ++ r.2.1) reps (cur + r.2.2.1)
            r.2.2.2.1, r.2.2.2.2)
      | .ignored cfg st pattern =>
          -- IgnoredPattern.match_ignore: the child is offered the node with an
          -- undefined depth (source: pattern.matches(el)) and Incomplete,
          -- Matching and Break are upgraded to Break.
          let r := Pattern.matchesN fuel pattern node none s
          (ignoreMap r.1, .ignored cfg st r.2.1, r.2.2)
      | .exceptPat cfg st musnt mustm =>
          -- ExceptPattern.match_execpt on the forbidden child (the must_match
          -- slot is declared but never consulted, as in the source).
          let r := Pattern.matchesN fuel musnt node depth s
          (exceptMap r.1, .exceptPat cfg st r.2.1 mustm, r.2.2)
      | .anyPat cfg st patterns =>
          -- AnyPattern.match_any: offer the node to each option in turn until
          -- one answers something other than NonMatching or Unapplied; the
          -- running resp starts at Matching, so an empty union reports
          -- Matching.
          let r := Pattern.anyAuxN fuel patterns .Matching node depth s
          (r.1, .anyPat cfg st r.2.1, r.2.2)

/-- The cursor loop of SequencePattern.match_seq viewed on the suffix of the
child list starting at the cursor (the source recursion match_seq advances
this.cur and re-enters; here advancing the cursor is recursing into the
tail).  Returns the response, the updated suffix, the number of cursor
advances, the updated cur_counts and the store.  The empty case is the
out-of-range child access the source crashes on (unreachable while the
sequence is used by the orchestrator). -/
def Pattern.seqAuxN : Nat → List Pattern → List (Int × Int) → Int → DomNode →
    Option Int → Store →
    PatternMatchResponse × List Pattern × Nat × Int × Store
  | 0, todo, _, counts, _, _, s => (.Unapplied, todo, 0, counts, s)
  | _ + 1, [], _, counts, _, _, s => (.Unapplied, [], 0, counts, s)
  | fuel + 1, pattern :: rest, reps, counts, node, depth, s =>
      let r := Pattern.matchesN fuel pattern node depth s
      let pat1 := r.2.1
      let s1 := r.2.2
      let mn := (repBounds reps).1
      let mx := (repBounds reps).2
      if r.1 = .NonMatching ∧ mn ≤ counts then
        -- time to roll over to the next pattern in the sequence (inc_pattern);
        -- if the whole thing is exhausted report Completed, otherwise retry
        -- the same node against the next child
        if rest.isEmpty then (.Completed, [pat1], 1, 0, s1)
        else
          let r2 := Pattern.seqAuxN fuel rest (reps.drop 1) 0 node depth s1
          (r2.1, pat1 :: r2.2.1, r2.2.2.1 + 1, r2.2.2.2.1, r2.2.2.2.2)
      else if r.1 = .Matching ∨ r.1 = .Completed then
        -- bump cur_counts and report Incomplete; advance the cursor once the
        -- child maximum is reached, and report Matching if that exhausts the
        -- sequence
        let counts1 := counts + 1
        if 0 < mx ∧ mx ≤ counts1 then
          (if rest.isEmpty then .Matching else .Incomplete, pat1 :: rest, 1, 0, s1)
        else
          (.Incomplete, pat1 :: rest, 0, counts1, s1)
      else (r.1, pat1 :: rest, 0, counts, s1)

/-- The option loop of AnyPattern.match_any: resp carries the running value
of the resp variable (initially Matching), each option is offered the node
at the same depth, and the loop stops at the first response other than
NonMatching or Unapplied; the final resp is returned. -/
def Pattern.anyAuxN : Nat → List Pattern → PatternMatchResponse → DomNode →
    Option Int → Store → PatternMatchResponse × List Pattern × Store
  | 0, todo, resp, _, _, s => (resp, todo, s)
  | _ + 1, [], resp, _, _, s => (resp, [], s)
  | fuel + 1, pattern :: rest, _, node, depth, s =>
      let r := Pattern.matchesN fuel pattern node depth s
      if r.1 = .NonMatching ∨ r.1 = .Unapplied then
        let t := Pattern.anyAuxN fuel rest r.1 node depth r.2.2
        (t.1, r.2.1 :: t.2.1, t.2.2)
      else (r.1, r.2.1 :: rest, r.2.2)

end

mutual

/-- Structural size of a pattern, used to compute an adequate fuel budget
for matchesN (executable, unlike the derived sizeOf of the nested
inductive). -/
def Pattern.psize : Pattern → Nat
  | .simple _ _ _ _ _ _ => 1
  | .sequence _ _ pats _ _ _ => 1 + Pattern.psizeList pats
  | .ignored _ _ pat => 1 + Pattern.psize pat
  | .exceptPat _ _ m mm =>
      1 + Pattern.psize m + (match mm with | some q => Pattern.psize q | none => 0)
  | .anyPat _ _ pats => 1 + Pattern.psizeList pats

/-- Structural size of a child list (at least 1, and decreasing under drop). -/
def Pattern.psizeList : List Pattern → Nat
  | [] => 1
  | p :: rest => 1 + Pattern.psize p + Pattern.psizeList rest

end

/-- Fuel budget that the recursion of matchesN can never exhaust on p (every
recursive call strictly descends into subpatterns or child-list tails while
consuming one unit of fuel). -/
def Pattern.fuelFor (p : Pattern) : Nat := 2 * Pattern.psize p + 2

/-- source: Pattern.matches(node, depth), at the adequate fuel budget. -/
def Pattern.matches (p : Pattern) (node : DomNode) (depth : Option Int) (s : Store) :
    PatternMatchResponse × Pattern × Store :=
  Pattern.matchesN (Pattern.fuelFor p) p node depth s

/-- source: SequencePattern.match_seq as a standalone operation on the
sequence fields: the cursor view is the suffix of the child list starting
at cur, processed by seqAux; the updated children are written back in place
and the cursor advanced by the number of roll-overs. -/
def SequencePattern.match_seq (pats : List Pattern) (reps : List (Int × Int))
    (cur : Nat) (counts : Int) (node : DomNode) (depth : Option Int) (s : Store) :
    PatternMatchResponse × List Pattern × Nat × Int × Store :=
  let r := Pattern.seqAuxN (2 * Pattern.psizeList (pats.drop cur) + 2)
    (pats.drop cur) (reps.drop cur) counts node depth s
  (r.1, pats.take cur ++ r.2.1, cur + r.2.2.1, r.2.2.2.1, r.2.2.2.2)

/-- source: IgnoredPattern.match_ignore — offer the node to the wrapped
child with an undefined depth and upgrade Incomplete, Matching and Break to
Break. -/
def IgnoredPattern.match_ignore (pattern : Pattern) (el : DomNode) (s : Store) :
    PatternMatchResponse × Pattern × Store :=
  let r := Pattern.matches pattern el none s
  (ignoreMap r.1, r.2.1, r.2.2)

/-- source: ExceptPattern.match_execpt — offer the node to the forbidden
child and map its response: Matching and Completed become NonMatching,
NonMatching becomes Matching, anything else passes through. -/
def ExceptPattern.match_execpt (musnt : Pattern) (element : DomNode)
    (depth : Option Int) (s : Store) : PatternMatchResponse × Pattern × Store :=
  let r := Pattern.matches musnt element depth s
  (exceptMap r.1, r.2.1, r.2.2)

/-- Base-state part of Pattern.reset: clear the anchor depth and, when
handling is enabled, swap in a freshly allocated accumulator owned by
pattern idx.  Everything else, including the applications-used counter, is
left alone. -/
def PatternState.resetState (st : PatternState) (idx : Nat) (s : Store) :
    PatternState × Store :=
  match st.matchId with
  | none => ({ st with cur_depth := some (-1) }, s)
  | some _ =>
      let a := s.alloc idx
      ({ st with cur_depth := some (-1), matchId := some a.1 }, a.2)

mutual

/-- source: Pattern.reset, together with the two overrides.  SequencePattern
also rewinds the cursor and the per-child repeat counter before delegating
to the base reset.  AnyPattern replaces the base reset entirely: it does
not clear the anchor depth, it cascades reset into each of its options, and
it rebuilds its wrapper accumulator pre-seeded with the options' live
accumulators.  Always returns the old live accumulator id to the caller.
idx is the owning top-level pattern index fresh accumulators are tagged
with (JS: new PatternMatch(this)). -/
def Pattern.reset : Pattern → Nat → Store → Option Nat × Pattern × Store
  | .simple cfg st a b c d, idx, s =>
      let r := st.resetState idx s
      (st.matchId, .simple cfg r.1 a b c d, r.2)
  | .sequence cfg st pats reps _ _, idx, s =>
      let r := st.resetState idx s
      (st.matchId, .sequence cfg r.1 pats reps 0 0, r.2)
  | .ignored cfg st pat, idx, s =>
      let r := st.resetState idx s
      (st.matchId, .ignored cfg r.1 pat, r.2)
  | .exceptPat cfg st m mm, idx, s =>
      let r := st.resetState idx s
      (st.matchId, .exceptPat cfg r.1 m mm, r.2)
  | .anyPat cfg st pats, idx, s =>
      let r := Pattern.resetList pats idx s
      let a := Store.allocWith r.2 (r.1.map fun q => MatchItem.sub q.st.matchId) idx
      (st.matchId, .anyPat cfg { st with matchId := some a.1 } r.1, a.2)

/-- The cascaded option resets of AnyPattern.reset, left to right (source:
for (const pat of this.patterns) pat.reset()). -/
def Pattern.resetList : List Pattern → Nat → Store → List Pattern × Store
  | [], _, s => ([], s)
  | p :: rest, idx, s =>
      let r := Pattern.reset p idx s
      let t := Pattern.resetList rest idx r.2.2
      (r.2.1 :: t.1, t.2)

end

/-- Orchestrator state: the configured top-level patterns (addressed by
position, standing in for JS object references), the accumulator store and
the working set of the current apply invocation.  Working set entries are
accumulator ids; none is the JS null entry a non-managing top-level pattern
reports. -/
structure AnnotatorState where
  patterns : List Pattern
  store : Store
  matchSet : List (Option Nat)

/-- JS Set.add: append unless already present (insertion order preserved;
re-adding an existing element does not move it). -/
def wsAdd (ws : List (Option Nat)) (m : Option Nat) : List (Option Nat) :=
  if m ∈ ws then ws else ws ++ [m]

/-- JS Set.delete by identity.  The working set never holds duplicates, so
removing every occurrence removes the one occurrence. -/
def wsDelete (ws : List (Option Nat)) (m : Option Nat) : List (Option Nat) :=
  ws.filter (fun x => x ≠ m)

/-- JS Array.indexOf over the working-set snapshot (the uses in the engine
always look up a present element; an absent element yields the length). -/
def wsIndexOf (ws : List (Option Nat)) (m : Option Nat) : Nat :=
  match ws with
  | [] => 0
  | x :: rest => if x = m then 0 else wsIndexOf rest m + 1

/-- Reset the top-level pattern at index j. -/
def AnnotatorState.resetPatternAt (ast : AnnotatorState) (j : Nat) : AnnotatorState :=
  match ast.patterns.get? j with
  | some p =>
      let r := p.reset j ast.store
      { ast with patterns := ast.patterns.set j r.2.1, store := r.2.2 }
  | none => ast

/-- One iteration of the kill loop of _handle_match: reset the owning
pattern of the victim accumulator, then delete the victim from the working
set (source: kill_match.parent.reset(); matches.delete(kill_match)).  A
null entry or a dangling id crashes the source there; modelled by skipping
the reset (unreachable in engine runs). -/
def AnnotatorState.killOne (ast : AnnotatorState) (m : Option Nat) : AnnotatorState :=
  let ast1 := match m with
    | some i =>
        match ast.store.get i with
        | some pm => ast.resetPatternAt pm.parent
        | none => ast
    | none => ast
  { ast1 with matchSet := wsDelete ast1.matchSet m }

/-- The kill loop of _handle_match: snapshot the working set and kill every
entry strictly after position ind. -/
def AnnotatorState.killAfter (ast : AnnotatorState) (ind : Nat) : AnnotatorState :=
  (ast.matchSet.drop (ind + 1)).foldl AnnotatorState.killOne ast

/-- source: class HandleMatchResponse. -/
structure HandleMatchResponse where
  resp : PatternMatchResponse
  break_flag : Bool

/-- The shared Matching and Completed arm of _handle_match: register the
accumulator; when the pattern does not compound, kill every accumulator
registered strictly after it and set the break flag; when the pattern is
terminal, force the response to Break and set the break flag; finally reset
the pattern so the next node starts a fresh accumulator. -/
def Annotator.handleHit (ast : AnnotatorState) (resp : PatternMatchResponse)
    (j : Nat) (m : Option Nat) : AnnotatorState × HandleMatchResponse :=
  let ws1 := wsAdd ast.matchSet m
  let ast1 := { ast with matchSet := ws1 }
  let compounds := match ast1.patterns.get? j with
    | some p => p.cfg.compounds
    | none => true
  let terminal := match ast1.patterns.get? j with
    | some p => p.cfg.terminal
    | none => false
  let ast2 := if compounds then ast1 else ast1.killAfter (wsIndexOf ws1 m)
  let resp1 := if terminal then PatternMatchResponse.Break else resp
  let ast3 := ast2.resetPatternAt j
  (ast3, ⟨resp1, !compounds || terminal⟩)

/-- source: Annotator._handle_match — classify the response of pattern j on
the current node; m is the accumulator the pattern reported (pat.match at
call time). -/
def Annotator._handle_match (ast : AnnotatorState)
    (core_response : PatternMatchResponse) (j : Nat) (m : Option Nat) :
    AnnotatorState × HandleMatchResponse :=
  match core_response with
  | .NonMatching =>
      -- continue on to the next pattern, discarding any built-up state
      let ast1 := ast.resetPatternAt j
      ({ ast1 with matchSet := wsDelete ast1.matchSet m }, ⟨.NonMatching, false⟩)
  | .Incomplete =>
      -- keep the accumulator registered in case following matches must be
      -- discarded if it completes later
      ({ ast with matchSet := wsAdd ast.matchSet m }, ⟨.Incomplete, false⟩)
  | .Completed => Annotator.handleHit ast .Completed j m
  | .Matching => Annotator.handleHit ast .Matching j m
  | .Break => (ast, ⟨.Break, true⟩)
  | .Unapplied => (ast, ⟨.Unapplied, false⟩)

/-- The pattern loop of Annotator._match_node from index j on.  fuel bounds
the number of remaining iterations; every engine operation preserves the
length of the pattern list, so fuel = length - j reproduces the source loop
exactly.  resp is the running value of the resp variable (its final value
is returned).  The third component is the trace of offers (pattern index,
node) made through pat.matches, recording which patterns get to see the
node. -/
def Annotator.matchNodeAux : Nat → AnnotatorState → DomNode → Int → Nat →
    PatternMatchResponse →
    AnnotatorState × PatternMatchResponse × List (Nat × DomNode)
  | 0, ast, _, _, _, resp => (ast, resp, [])
  | fuel + 1, ast, node, depth, j, resp =>
      match ast.patterns.get? j with
      | none => (ast, resp, [])
      | some pat =>
          let r := pat.matches node (some depth) ast.store
          let ast1 : AnnotatorState :=
            { ast with patterns := ast.patterns.set j r.2.1, store := r.2.2 }
          let m := r.2.1.st.matchId
          let h1 := Annotator._handle_match ast1 r.1 j m
          if h1.2.resp = .Completed then
            -- the look-ahead found the built-up match complete without this
            -- node: re-offer the node to the freshly reset pattern
            match (h1.1).patterns.get? j with
            | none => (h1.1, r.1, [(j, node)])
            | some pat2 =>
                let r2 := pat2.matches node (some depth) (h1.1).store
                let ast2 : AnnotatorState :=
                  { h1.1 with
                    patterns := (h1.1).patterns.set j r2.2.1, store := r2.2.2 }
                let m2 := r2.2.1.st.matchId
                let h2 := Annotator._handle_match ast2 r2.1 j m2
                if h1.2.break_flag || h2.2.break_flag then
                  (h2.1, r2.1, [(j, node), (j, node)])
                else
                  let q := Annotator.matchNodeAux fuel h2.1 node depth (j + 1) r2.1
                  (q.1, q.2.1, (j, node) :: (j, node) :: q.2.2)
          else
            if h1.2.break_flag then (h1.1, r.1, [(j, node)])
            else
              let q := Annotator.matchNodeAux fuel h1.1 node depth (j + 1) r.1
              (q.1, q.2.1, (j, node) :: q.2.2)

/-- source: Annotator._match_node — offer one node to the configured
patterns in list order, honoring break flags and the lookahead retry. -/
def Annotator._match_node (ast : AnnotatorState) (node : DomNode) (depth : Int) :
    AnnotatorState × PatternMatchResponse × List (Nat × DomNode) :=
  Annotator.matchNodeAux ast.patterns.length ast node depth 0 .Matching

mutual

/-- Structural size of a markup tree, used to compute an adequate traversal
fuel budget (executable, unlike the derived sizeOf of the nested
inductive). -/
def DomNode.dsize : DomNode → Nat
  | ⟨_, _, children⟩ => 1 + DomNode.dsizeList children

/-- Structural size of a sibling list. -/
def DomNode.dsizeList : List DomNode → Nat
  | [] => 1
  | n :: rest => 1 + DomNode.dsize n + DomNode.dsizeList rest

end

/-- source: Annotator._apply_rec, flattened over sibling lists: process each
node (one _match_node pass) and descend into its children unless the final
response was Break; descent re-checks the source entry guard
max_depth <= 0 or new depth <= max_depth.  Returns the updated state and
the concatenated offer trace.  The fuel argument only bounds the recursion
(the traversal strictly descends into subtrees and tails, so the budget
applyRecList supplies is never exhausted); it makes the definition
structural and hence computable by the kernel. -/
def Annotator.applyRecListN : Nat → AnnotatorState → List DomNode → Int → Int →
    AnnotatorState × List (Nat × DomNode)
  | 0, ast, _, _, _ => (ast, [])
  | _ + 1, ast, [], _, _ => (ast, [])
  | fuel + 1, ast, n :: rest, max_depth, cur_depth =>
      let r := Annotator._match_node ast n cur_depth
      let d :=
        if r.2.1 ≠ .Break ∧ (max_depth ≤ 0 ∨ cur_depth + 1 ≤ max_depth) then
          Annotator.applyRecListN fuel r.1 n.children max_depth (cur_depth + 1)
        else (r.1, [])
      let t := Annotator.applyRecListN fuel d.1 rest max_depth cur_depth
      (t.1, r.2.2 ++ d.2 ++ t.2)

/-- The sibling-list traversal at the adequate fuel budget. -/
def Annotator.applyRecList (ast : AnnotatorState) (nodes : List DomNode)
    (max_depth : Int) (cur_depth : Int) : AnnotatorState × List (Nat × DomNode) :=
  Annotator.applyRecListN (2 * DomNode.dsizeList nodes + 2) ast nodes max_depth cur_depth

/-- source: Annotator._apply_rec on a root node. -/
def Annotator._apply_rec (ast : AnnotatorState) (root : DomNode)
    (max_depth : Int) (cur_depth : Int) : AnnotatorState × List (Nat × DomNode) :=
  if max_depth ≤ 0 ∨ cur_depth ≤ max_depth then
    Annotator.applyRecList ast root.children max_depth cur_depth
  else (ast, [])

def Annotator.initAux : List Pattern → Nat → Store → List Pattern × Store
  | [], _, s => ([], s)
  | p :: rest, j, s =>
      let r :=
        if p.cfg.manage_match then
          let a := s.alloc j
          (p.setSt { p.st with matchId := some a.1 }, a.2)
        else (p, s)
      let t := Annotator.initAux rest (j + 1) r.2
      (r.1 :: t.1, t.2)

/-- Build the initial engine state from the configured pattern list: for
each top-level pattern that manages its own match, allocate its initial
empty accumulator (the JS Pattern constructor does this at configuration
time), owned by the pattern position. -/
def Annotator.init (ps : List Pattern) : AnnotatorState :=
  let r := Annotator.initAux ps 0 ⟨[]⟩
  ⟨r.1, r.2, []⟩

/-- The final loop of Annotator.apply: every accumulator surviving in the
working set invokes its owning pattern exactly once, in insertion order
(match.value.apply() delegates to parent.apply(match), which runs the
configured transform when one is set).  Produces the list of (transform id,
accumulator) applications; none models the crash the source hits on a null
working-set entry or a dangling id. -/
def Annotator.applyLoop (a : AnnotatorState) :
    List (Option Nat) → Option (List (Option Nat × PatternMatch))
  | [] => some []
  | m :: rest =>
      match m with
      | none => none
      | some i =>
          match a.store.get i with
          | none => none
          | some pm =>
              match a.patterns.get? pm.parent with
              | none => none
              | some p =>
                  match Annotator.applyLoop a rest with
                  | none => none
                  | some evs => some ((p.cfg.transform, pm) :: evs)

/-- source: Annotator.apply — populate the working set by the depth-first
walk starting at depth 0 over the children of root, then apply every
surviving accumulator in discovery order. -/
def Annotator.apply (ps : List Pattern) (root : DomNode) (max_depth : Int) :
    AnnotatorState × List (Nat × DomNode) ×
      Option (List (Option Nat × PatternMatch)) :=
  let ast := Annotator.init ps
  let r := Annotator._apply_rec ast root max_depth 0
  (r.1, r.2, Annotator.applyLoop r.1 r.1.matchSet)

/-- Initial mutable state of a freshly constructed pattern: anchor depth -1,
zero applications used, no live accumulator yet (the orchestrator
initializer allocates it for managing top-level patterns). -/
def initSt : PatternState := ⟨some (-1), 0, none⟩

/-- Configuration the TagPattern constructor produces with default options:
priority 0, compounding, not terminal, open_ended false, relative depth
window 0, no absolute depth ceiling, unbounded applications, managed match,
no transform. -/
def TagPattern.defaultCfg : PatternConfig :=
  ⟨0, true, false, false, 0, -1, -1, true, none⟩

/-- source: TagPattern constructor — upper-case the tags and compare the
tagName field exactly under the any quantifier. -/
def TagPattern.make (tags : List String) (cfg : PatternConfig) : Pattern :=
  .simple cfg initSt "tagName" (tags.map strUpper) true false

/-- source: ClassPattern constructor — match the className field by
containment under the all quantifier. -/
def ClassPattern.make (classes : List String) (cfg : PatternConfig) : Pattern :=
  .simple cfg initSt "className" classes false true

/-- Configuration the SequencePattern constructor produces with default
options (priority 1) and a given transform. -/
def SequencePattern.defaultCfg (transform : Option Nat) : PatternConfig :=
  ⟨1, true, false, false, 0, -1, -1, true, transform⟩

/-- source: SequencePattern constructor — wraps the ordered children (whose
handling is disabled: they are built here with no live accumulator) with
per-child [min, max] repeat bounds, cursor at the first child. -/
def SequencePattern.make (patterns : List Pattern) (repeats : List (Int × Int))
    (cfg : PatternConfig) : Pattern :=
  .sequence cfg initSt patterns repeats 0 0

/-- Configuration the ExceptPattern constructor produces: manage_match is
forced off (the subpatterns manage the matches). -/
def ExceptPattern.defaultCfg : PatternConfig :=
  ⟨1, true, false, false, 0, -1, -1, false, none⟩

/-- source: ExceptPattern constructor over one forbidden pattern (the
must_match companion slot stays empty). -/
def ExceptPattern.make (musnt : Pattern) : Pattern :=
  .exceptPat ExceptPattern.defaultCfg initSt musnt none

/-- Configuration the IgnoredPattern constructor produces with default
options: terminal is true by default. -/
def IgnoredPattern.defaultCfg : PatternConfig :=
  ⟨1, true, true, false, 0, -1, -1, true, none⟩

/-- source: IgnoredPattern constructor over one wrapped pattern (handling
disabled on the child). -/
def IgnoredPattern.make (pattern : Pattern) : Pattern :=
  .ignored IgnoredPattern.defaultCfg initSt pattern

/-- The heading tag set h1..h5 of the section scenario. -/
def headingTags : List String := ["h1", "h2", "h3", "h4", "h5"]

/-- The section sequence of testable property 2: exactly one heading, then
one or more non-headings (transform id 0 standing in for the SectionMaker
callback). -/
def sectionSeq : Pattern :=
  SequencePattern.make
    [TagPattern.make headingTags TagPattern.defaultCfg,
     ExceptPattern.make (TagPattern.make headingTags TagPattern.defaultCfg)]
    [(1, 1), (1, -1)]
    (SequencePattern.defaultCfg (some 0))

def nodeH2 : DomNode := ⟨"h2", "s0", []⟩
def nodeP1 : DomNode := ⟨"p", "s1", []⟩
def nodeP2 : DomNode := ⟨"p", "s2", []⟩
def nodeH3 : DomNode := ⟨"h3", "s3", []⟩
def nodeP4 : DomNode := ⟨"p", "s4", []⟩

/-- A root element carrying the flat sibling list [h2, p, p, h3, p]. -/
def rootC1 : DomNode := ⟨"div", "", [nodeH2, nodeP1, nodeP2, nodeH3, nodeP4]⟩

/-- The traversal state after the first three siblings [h2, p, p] of the
section scenario. -/
def astMidC1 : AnnotatorState :=
  (Annotator.applyRecList (Annotator.init [sectionSeq]) [nodeH2, nodeP1, nodeP2] (-1) 0).1

/-- The node pass of the section scenario on the second heading h3. -/
def astH3C1 : AnnotatorState × PatternMatchResponse × List (Nat × DomNode) :=
  Annotator._match_node astMidC1 nodeH3 0

/-- A plain paragraph tag pattern with default options. -/
def tagPatternP : Pattern := TagPattern.make ["p"] TagPattern.defaultCfg

/-- A paragraph tag pattern whose anchor depth is already recorded at 5
(as after a prior partial match at depth 5). -/
def anchoredTagP : Pattern :=
  (TagPattern.make ["p"] TagPattern.defaultCfg).setSt ⟨some 5, 0, none⟩

/-- A paragraph tag pattern capped at one application which has already
completed one match. -/
def cappedTagP : Pattern :=
  (TagPattern.make ["p"] ⟨0, true, false, false, 0, -1, 1, true, none⟩).setSt
    ⟨some (-1), 1, none⟩

/-- A sequence demanding two or more paragraph-like nodes (transform id 1);
its first paragraph elicits an Incomplete response. -/
def seqP2 : Pattern :=
  SequencePattern.make [TagPattern.make ["p"] TagPattern.defaultCfg] [(2, -1)]
    (SequencePattern.defaultCfg (some 1))

/-- A root with a single paragraph: the seqP2 match is still incomplete when
the traversal ends. -/
def rootC10 : DomNode := ⟨"div", "", [nodeP1]⟩

/-- The sequence state after it has consumed the heading h2 (cursor on the
second child). -/
def seqAfterH2 : Pattern := (Pattern.matches sectionSeq nodeH2 (some 0) ⟨[]⟩).2.1

/-- The section sequence with an application cap of 1 (same children and
transform, applications = 1). -/
def cap1Seq : Pattern :=
  SequencePattern.make
    [TagPattern.make headingTags TagPattern.defaultCfg,
     ExceptPattern.make (TagPattern.make headingTags TagPattern.defaultCfg)]
    [(1, 1), (1, -1)]
    ⟨1, true, false, false, 0, -1, 1, true, some 0⟩

/-- Configuration the AnyPattern constructor produces with default options:
manage_match is passed as false (the options manage the matches), yet the
constructor and the reset override install a wrapper accumulator
directly. -/
def AnyPattern.defaultCfg : PatternConfig :=
  ⟨1, true, false, false, 0, -1, -1, false, none⟩

/-- A managing tag option inside a union: anchor recorded at depth 3, one
application used, live accumulator id 1. -/
def anyChildP : Pattern :=
  .simple TagPattern.defaultCfg ⟨some 3, 1, some 1⟩ "tagName" ["P"] true false

/-- A union (AnyPattern) over that single option: anchor recorded at depth
4, two applications used, wrapper accumulator id 0. -/
def anyUnionP : Pattern :=
  .anyPat AnyPattern.defaultCfg ⟨some 4, 2, some 0⟩ [anyChildP]

/-- A store holding the union's wrapper (id 0) and the option's accumulator
(id 1). -/
def anyStore : Store :=
  ⟨[⟨[MatchItem.sub (some 1)], false, 0⟩, ⟨[MatchItem.node nodeP1], false, 0⟩]⟩

/-- The subtree-exclusion pattern over pre blocks. -/
def ignoredPre : Pattern :=
  IgnoredPattern.make (TagPattern.make ["pre"] TagPattern.defaultCfg)

def nodeSpan : DomNode := ⟨"span", "cx", []⟩
def nodePre : DomNode := ⟨"pre", "", [nodeSpan]⟩

/-- A root with a pre block (fencing off a span) followed by a paragraph. -/
def rootC3 : DomNode := ⟨"div", "", [nodePre, nodeP1]⟩

/-- A non-compounding paragraph pattern (compounds = false). -/
def noCompP : Pattern :=
  TagPattern.make ["p"] ⟨0, false, false, false, 0, -1, -1, true, none⟩

/-- Every pattern in the subtree, the root included, has handling disabled
(matchId = none), as the combinator constructors arrange for their
children via disable_handling. -/
inductive AllDisabled : Pattern → Prop where
  | simple : ∀ cfg st f o e a, st.matchId = none →
      AllDisabled (.simple cfg st f o e a)
  | sequence : ∀ cfg st pats reps cur counts, st.matchId = none →
      (∀ p ∈ pats, AllDisabled p) →
      AllDisabled (.sequence cfg st pats reps cur counts)
  | ignored : ∀ cfg st pat, st.matchId = none → AllDisabled pat →
      AllDisabled (.ignored cfg st pat)
  | exceptPat : ∀ cfg st m mm, st.matchId = none → AllDisabled m →
      AllDisabled (.exceptPat cfg st m mm)

/-- Every proper subpattern (the children a combinator delegates to) has
handling disabled; the pattern itself may own a live accumulator.  This is
how the constructors of the embedded combinators leave every engine-built
pattern; AnyPattern keeps its options' handling enabled ("the subpatterns
will manage all of the matches for real"), so it never satisfies this frame
predicate. -/
def Pattern.subsDisabled : Pattern → Prop
  | .simple _ _ _ _ _ _ => True
  | .sequence _ _ pats _ _ _ => ∀ p ∈ pats, AllDisabled p
  | .ignored _ _ pat => AllDisabled pat
  | .exceptPat _ _ m _ => AllDisabled m
  | .anyPat _ _ _ => False

/-- The pattern at index j has just been reset.  For the base reset (and the
sequence override, which delegates to it) the anchor is cleared and, if the
pattern manages a match, its live accumulator is empty and owned by j.  For
the AnyPattern override the wrapper accumulator has just been rebuilt from
the options' live accumulators, owned by j (the anchor is left alone). -/
def ResetFresh (ast : AnnotatorState) (j : Nat) : Prop :=
  ∃ p, ast.patterns.get? j = some p ∧
    ((p.st.cur_depth = some (-1) ∧
      (∀ i, p.st.matchId = some i → ast.store.get i = some ⟨[], false, j⟩)) ∨
     (∃ cfg st pats, p = .anyPat cfg st pats ∧
      ∀ i, st.matchId = some i →
        ast.store.get i =
          some ⟨pats.map (fun q => MatchItem.sub q.st.matchId), false, j⟩))

/-- Every accumulator ever allocated is still open (complete = false): the
finalize operation is never invoked by the engine. -/
def Store.allOpen (s : Store) : Prop := ∀ pm ∈ s.data, pm.complete = false

/-- The shape of a default-configured subtree-exclusion pattern wrapping
Tag("pre"), up to the mutable state the engine updates (the child keeps no
live accumulator, and the wrapper never records an anchor because it never
answers Matching or Incomplete). -/
def IsIgnoredPre (p : Pattern) : Prop :=
  ∃ a mid cst, PatternState.matchId cst = none ∧
    p = .ignored IgnoredPattern.defaultCfg ⟨some (-1), a, mid⟩
      (.simple TagPattern.defaultCfg cst "tagName" ["PRE"] true false)

theorem Pattern.st_setSt (p : Pattern) (st : PatternState) : (p.setSt st).st = st := by
  cases p <;> rfl

theorem Pattern.cfg_setSt (p : Pattern) (st : PatternState) : (p.setSt st).cfg = p.cfg := by
  cases p <;> rfl

theorem Pattern.postMatch_resp (m : PatternMatchResponse) (p1 : Pattern)
    (node : DomNode) (d : Option Int) (s1 : Store) :
    (Pattern.postMatch m p1 node d s1).1 = m := by
  unfold Pattern.postMatch
  split <;> rfl

theorem Pattern.postMatch_st (m : PatternMatchResponse) (p1 : Pattern)
    (node : DomNode) (d : Option Int) (s1 : Store) :
    (Pattern.postMatch m p1 node d s1).2.1.st =
      (if m = .Matching ∨ m = .Incomplete then
        ⟨if p1.st.cur_depth = some (-1) then d else p1.st.cur_depth,
         if m = .Matching then p1.st.applied + 1 else p1.st.applied,
         p1.st.matchId⟩
      else p1.st) := by
  unfold Pattern.postMatch
  split
  · simp [Pattern.st_setSt]
  · simp

theorem Pattern.postMatch_cfg (m : PatternMatchResponse) (p1 : Pattern)
    (node : DomNode) (d : Option Int) (s1 : Store) :
    (Pattern.postMatch m p1 node d s1).2.1.cfg = p1.cfg := by
  unfold Pattern.postMatch
  split
  · simp [Pattern.cfg_setSt]
  · rfl

theorem Pattern.postMatch_store (m : PatternMatchResponse) (p1 : Pattern)
    (node : DomNode) (d : Option Int) (s1 : Store) :
    (Pattern.postMatch m p1 node d s1).2.2 =
      (if m = .Matching ∨ m = .Incomplete then
        (match p1.st.matchId with
          | some i => s1.pushNode i node
          | none => s1)
      else s1) := by
  unfold Pattern.postMatch
  split
  · simp [Pattern.st_setSt]
  · rfl

theorem Pattern.runMatcherN_st (fuel : Nat) (p : Pattern) (n : DomNode)
    (d : Option Int) (s : Store) : (Pattern.runMatcherN fuel p n d s).2.1.st = p.st := by
  cases fuel with
  | zero => rfl
  | succ f => cases p <;> rfl

theorem Pattern.runMatcherN_cfg (fuel : Nat) (p : Pattern) (n : DomNode)
    (d : Option Int) (s : Store) : (Pattern.runMatcherN fuel p n d s).2.1.cfg = p.cfg := by
  cases fuel with
  | zero => rfl
  | succ f => cases p <;> rfl

/-- The mutable-state effect of one matches call, by response: Matching and
Incomplete record the anchor when unset; Matching additionally increments
the applications-used counter; every other response leaves the state
untouched; the live accumulator reference never changes. -/
theorem Pattern.matchesN_st (fuel : Nat) (p : Pattern) (n : DomNode)
    (d : Option Int) (s : Store) :
    (Pattern.matchesN fuel p n d s).2.1.st =
      (if (Pattern.matchesN fuel p n d s).1 = .Matching ∨
          (Pattern.matchesN fuel p n d s).1 = .Incomplete then
        ⟨if p.st.cur_depth = some (-1) then d else p.st.cur_depth,
         if (Pattern.matchesN fuel p n d s).1 = .Matching then p.st.applied + 1
         else p.st.applied,
         p.st.matchId⟩
      else p.st) := by
  cases fuel with
  | zero => simp [Pattern.matchesN]
  | succ f =>
      unfold Pattern.matchesN
      split
      · simp
      · rw [Pattern.postMatch_resp, Pattern.postMatch_st, Pattern.runMatcherN_st]

theorem Pattern.matchesN_cfg (fuel : Nat) (p : Pattern) (n : DomNode)
    (d : Option Int) (s : Store) :
    (Pattern.matchesN fuel p n d s).2.1.cfg = p.cfg := by
  cases fuel with
  | zero => rfl
  | succ f =>
      unfold Pattern.matchesN
      split
      · rfl
      · rw [Pattern.postMatch_cfg, Pattern.runMatcherN_cfg]

theorem Pattern.matches_st (p : Pattern) (n : DomNode) (d : Option Int) (s : Store) :
    (Pattern.matches p n d s).2.1.st =
      (if (Pattern.matches p n d s).1 = .Matching ∨
          (Pattern.matches p n d s).1 = .Incomplete then
        ⟨if p.st.cur_depth = some (-1) then d else p.st.cur_depth,
         if (Pattern.matches p n d s).1 = .Matching then p.st.applied + 1
         else p.st.applied,
         p.st.matchId⟩
      else p.st) :=
  Pattern.matchesN_st (Pattern.fuelFor p) p n d s

theorem Pattern.matches_cfg (p : Pattern) (n : DomNode) (d : Option Int) (s : Store) :
    (Pattern.matches p n d s).2.1.cfg = p.cfg :=
  Pattern.matchesN_cfg (Pattern.fuelFor p) p n d s

/-- The application-cap precondition of Pattern.matches: a configured cap
that is already reached short-circuits with Unapplied before the matcher
runs, leaving the pattern and the store untouched. -/
theorem Pattern.matches_capped (p : Pattern) (n : DomNode) (d : Option Int) (s : Store)
    (h1 : 0 ≤ p.cfg.applications) (h2 : p.cfg.applications ≤ p.st.applied) :
    Pattern.matches p n d s = (.Unapplied, p, s) := by
  have hsc : p.unappliedShortCircuit d = true := by
    unfold Pattern.unappliedShortCircuit
    simp [h1, h2]
  unfold Pattern.matches
  rw [show Pattern.fuelFor p = (2 * Pattern.psize p + 1) + 1 from rfl]
  unfold Pattern.matchesN
  simp [hsc]

/-- The relative-depth-window precondition of Pattern.matches: with an
anchor recorded and a window configured, a depth beyond anchor + window
short-circuits with Unapplied before the matcher runs, leaving the pattern
and the store untouched. -/
theorem Pattern.matches_window_exceeded (p : Pattern) (n : DomNode) (d c : Int)
    (s : Store) (hc : p.st.cur_depth = some c) (hc0 : 0 ≤ c)
    (hw : 0 ≤ p.cfg.depth) (hx : p.cfg.depth < d - c) :
    Pattern.matches p n (some d) s = (.Unapplied, p, s) := by
  have hsc : p.unappliedShortCircuit (some d) = true := by
    unfold Pattern.unappliedShortCircuit
    simp [hc, curDepthNonneg, jsWindowExceeded, hc0, hw, hx]
  unfold Pattern.matches
  rw [show Pattern.fuelFor p = (2 * Pattern.psize p + 1) + 1 from rfl]
  unfold Pattern.matchesN
  simp [hsc]

/-- C4 counterexample: a paragraph pattern with relative depth window 0 and
an anchor already recorded at depth 5, offered a matching node at depth 3
(below the anchor, hence outside [anchor, anchor + window]), runs its
matcher and answers Matching — not Unapplied as the claim states. -/
theorem C4_counterexample :
    anchoredTagP.st.cur_depth = some 5 ∧ anchoredTagP.cfg.depth = 0 ∧
    (3 : Int) < 5 ∧
    (Pattern.matches anchoredTagP nodeP1 (some 3) ⟨[]⟩).1 = .Matching :=
  ⟨rfl, rfl, by decide, rfl⟩

/-- C4 (amended): with a relative depth window configured and an anchor
depth recorded, matches(node, depth) returns Unapplied whenever depth
exceeds anchor + window, without running the pattern-specific matcher (the
pattern and the store are returned untouched).  Depths below the anchor are
not short-circuited (see the counterexample). -/
theorem C4_depth_window_upper (p : Pattern) (n : DomNode) (d c : Int) (s : Store)
    (hanchor : p.st.cur_depth = some c) (hanchor0 : 0 ≤ c)
    (hwindow : 0 ≤ p.cfg.depth) (habove : p.cfg.depth < d - c) :
    Pattern.matches p n (some d) s = (.Unapplied, p, s) :=
  Pattern.matches_window_exceeded p n d c s hanchor hanchor0 hwindow habove

theorem C4_witness :
    Pattern.matches anchoredTagP nodeP1 (some 6) ⟨[]⟩ =
      (.Unapplied, anchoredTagP, ⟨[]⟩) :=
  C4_depth_window_upper anchoredTagP nodeP1 6 5 ⟨[]⟩ rfl (by decide) (by decide)
    (by decide)

/-- C6 counterexample: completing a match does not always consume an
application, because only a Matching response increments the counter.  The
section sequence capped at one application completes its first match on the
h3 heading via the Completed rollover, which leaves the counter at 0 — so
the cap never fires, the engine registers a second match (working set
[some 0, some 1], the second accumulator holding two nodes), and the
applications-used counter still reads 0 after the whole run.  This refutes
the claim that once such a pattern has completed its first match every
subsequent call returns Unapplied. -/
theorem C6_counterexample :
    (Annotator.apply [cap1Seq] rootC1 (-1)).1.matchSet = [some 0, some 1] ∧
    (Annotator.apply [cap1Seq] rootC1 (-1)).1.patterns.map
      (fun p => p.st.applied) = [0] ∧
    ((Annotator.apply [cap1Seq] rootC1 (-1)).1.store.get 1).map
      (fun pm => pm.nodes.length) = some 2 :=
  ⟨rfl, rfl, rfl⟩

/-- C6 (amended): with an application cap configured, matches answers
Unapplied for every node, leaving the pattern and the store untouched,
whenever the applications-used counter has already reached the cap (the
short circuit fires before the matcher runs); but only a Matching response
increments that counter by one, so completing a match via the Completed
rollover consumes no application and the pattern keeps matching (see the
counterexample). -/
theorem C6_application_cap :
    (∀ (p : Pattern) (n : DomNode) (d : Option Int) (s : Store),
      p.cfg.applications = 1 → 1 ≤ p.st.applied →
      Pattern.matches p n d s = (.Unapplied, p, s)) ∧
    (∀ (p : Pattern) (n : DomNode) (d : Option Int) (s : Store),
      (Pattern.matches p n d s).1 = .Matching →
      (Pattern.matches p n d s).2.1.st.applied = p.st.applied + 1) := by
  constructor
  · intro p n d s hcap hused
    refine Pattern.matches_capped p n d s ?_ ?_
    · rw [hcap]
      decide
    · rw [hcap]
      exact hused
  · intro p n d s h
    have hst := Pattern.matches_st p n d s
    rw [h] at hst
    simp at hst
    rw [hst]

theorem C6_witness :
    Pattern.matches cappedTagP nodeP1 (some 0) ⟨[]⟩ =
        (.Unapplied, cappedTagP, ⟨[]⟩) ∧
      (Pattern.matches tagPatternP nodeP1 (some 0) ⟨[]⟩).2.1.st.applied =
        tagPatternP.st.applied + 1 :=
  ⟨C6_application_cap.1 cappedTagP nodeP1 (some 0) ⟨[]⟩ rfl (by decide),
   C6_application_cap.2 tagPatternP nodeP1 (some 0) ⟨[]⟩ rfl⟩

/-- C7: the negation combinator maps the forbidden pattern response to its
own: NonMatching exactly when the child reports Matching or Completed,
Matching exactly when the child reports NonMatching, and every other child
response (Incomplete, Break, Unapplied) passes through unchanged. -/
theorem C7_negation (musnt : Pattern) (element : DomNode) (depth : Option Int)
    (s : Store) :
    ((ExceptPattern.match_execpt musnt element depth s).1 = .NonMatching ↔
      ((Pattern.matches musnt element depth s).1 = .Matching ∨
       (Pattern.matches musnt element depth s).1 = .Completed)) ∧
    ((ExceptPattern.match_execpt musnt element depth s).1 = .Matching ↔
      (Pattern.matches musnt element depth s).1 = .NonMatching) ∧
    ((Pattern.matches musnt element depth s).1 = .Incomplete →
      (ExceptPattern.match_execpt musnt element depth s).1 = .Incomplete) ∧
    ((Pattern.matches musnt element depth s).1 = .Break →
      (ExceptPattern.match_execpt musnt element depth s).1 = .Break) ∧
    ((Pattern.matches musnt element depth s).1 = .Unapplied →
      (ExceptPattern.match_execpt musnt element depth s).1 = .Unapplied) := by
  cases h : (Pattern.matches musnt element depth s).1 <;>
    simp [ExceptPattern.match_execpt, exceptMap, h]

theorem C7_witness :
    (ExceptPattern.match_execpt tagPatternP nodeH2 (some 0) ⟨[]⟩).1 = .Matching :=
  ((C7_negation tagPatternP nodeH2 (some 0) ⟨[]⟩).2.1).mpr rfl

theorem Pattern.matches_eq (p : Pattern) (n : DomNode) (d : Option Int) (s : Store) :
    Pattern.matches p n d s =
      (if p.unappliedShortCircuit d then (.Unapplied, p, s)
       else
         let r := Pattern.runMatcherN (2 * Pattern.psize p + 1) p n d s
         Pattern.postMatch r.1 r.2.1 n d r.2.2) := rfl

theorem Pattern.matchesN_succ (fuel : Nat) (p : Pattern) (n : DomNode)
    (d : Option Int) (s : Store) :
    Pattern.matchesN (fuel + 1) p n d s =
      (if p.unappliedShortCircuit d then (.Unapplied, p, s)
       else
         let r := Pattern.runMatcherN fuel p n d s
         Pattern.postMatch r.1 r.2.1 n d r.2.2) := rfl

theorem Pattern.runMatcherN_simple (fuel : Nat) (cfg : PatternConfig)
    (st : PatternState) (fname : String) (fopts : List String) (e a : Bool)
    (n : DomNode) (d : Option Int) (s : Store) :
    Pattern.runMatcherN (fuel + 1) (.simple cfg st fname fopts e a) n d s =
      (SimplePattern.match_field n fname fopts e a,
        .simple cfg st fname fopts e a, s) := rfl

theorem Pattern.runMatcherN_sequence (fuel : Nat) (cfg : PatternConfig)
    (st : PatternState) (pats : List Pattern) (reps : List (Int × Int))
    (cur : Nat) (counts : Int) (n : DomNode) (d : Option Int) (s : Store) :
    Pattern.runMatcherN (fuel + 1) (.sequence cfg st pats reps cur counts) n d s =
      (let r := Pattern.seqAuxN fuel (pats.drop cur) (reps.drop cur) counts n d s
       (r.1, .sequence cfg st (pats.take cur ++ r.2.1) reps (cur + r.2.2.1)
         r.2.2.2.1, r.2.2.2.2)) := rfl

theorem Pattern.runMatcherN_ignored (fuel : Nat) (cfg : PatternConfig)
    (st : PatternState) (pat : Pattern) (n : DomNode) (d : Option Int) (s : Store) :
    Pattern.runMatcherN (fuel + 1) (.ignored cfg st pat) n d s =
      (let r := Pattern.matchesN fuel pat n none s
       (ignoreMap r.1, .ignored cfg st r.2.1, r.2.2)) := rfl

theorem Pattern.runMatcherN_exceptPat (fuel : Nat) (cfg : PatternConfig)
    (st : PatternState) (musnt : Pattern) (mm : Option Pattern) (n : DomNode)
    (d : Option Int) (s : Store) :
    Pattern.runMatcherN (fuel + 1) (.exceptPat cfg st musnt mm) n d s =
      (let r := Pattern.matchesN fuel musnt n d s
       (exceptMap r.1, .exceptPat cfg st r.2.1 mm, r.2.2)) := rfl

theorem Pattern.runMatcherN_anyPat (fuel : Nat) (cfg : PatternConfig)
    (st : PatternState) (pats : List Pattern) (n : DomNode) (d : Option Int)
    (s : Store) :
    Pattern.runMatcherN (fuel + 1) (.anyPat cfg st pats) n d s =
      (let r := Pattern.anyAuxN fuel pats .Matching n d s
       (r.1, .anyPat cfg st r.2.1, r.2.2)) := rfl

theorem Pattern.anyAuxN_nil (fuel : Nat) (resp : PatternMatchResponse)
    (n : DomNode) (d : Option Int) (s : Store) :
    Pattern.anyAuxN (fuel + 1) [] resp n d s = (resp, [], s) := rfl

theorem Pattern.anyAuxN_cons (fuel : Nat) (pattern : Pattern)
    (rest : List Pattern) (resp : PatternMatchResponse) (n : DomNode)
    (d : Option Int) (s : Store) :
    Pattern.anyAuxN (fuel + 1) (pattern :: rest) resp n d s =
      (let r := Pattern.matchesN fuel pattern n d s
       if r.1 = .NonMatching ∨ r.1 = .Unapplied then
         let t := Pattern.anyAuxN fuel rest r.1 n d r.2.2
         (t.1, r.2.1 :: t.2.1, t.2.2)
       else (r.1, r.2.1 :: rest, r.2.2)) := rfl

theorem Pattern.seqAuxN_nil (fuel : Nat) (reps : List (Int × Int)) (counts : Int)
    (n : DomNode) (d : Option Int) (s : Store) :
    Pattern.seqAuxN (fuel + 1) [] reps counts n d s = (.Unapplied, [], 0, counts, s) := rfl

theorem Pattern.seqAuxN_cons (fuel : Nat) (pattern : Pattern) (rest : List Pattern)
    (reps : List (Int × Int)) (counts : Int) (n : DomNode) (d : Option Int) (s : Store) :
    Pattern.seqAuxN (fuel + 1) (pattern :: rest) reps counts n d s =
      (let r := Pattern.matchesN fuel pattern n d s
       let pat1 := r.2.1
       let s1 := r.2.2
       let mn := (repBounds reps).1
       let mx := (repBounds reps).2
       if r.1 = .NonMatching ∧ mn ≤ counts then
         if rest.isEmpty then (.Completed, [pat1], 1, 0, s1)
         else
           let r2 := Pattern.seqAuxN fuel rest (reps.drop 1) 0 n d s1
           (r2.1, pat1 :: r2.2.1, r2.2.2.1 + 1, r2.2.2.2.1, r2.2.2.2.2)
       else if r.1 = .Matching ∨ r.1 = .Completed then
         let counts1 := counts + 1
         if 0 < mx ∧ mx ≤ counts1 then
           (if rest.isEmpty then .Matching else .Incomplete, pat1 :: rest, 1, 0, s1)
         else
           (.Incomplete, pat1 :: rest, 0, counts1, s1)
       else (r.1, pat1 :: rest, 0, counts, s1)) := rfl

/-- The any-quantifier loop reports Matching exactly when some option
satisfies the comparison. -/
theorem matchAnyOption_spec (cname : String) (opts : List String) (e : Bool) :
    matchAnyOption cname opts e =
      (if opts.any (fun c => fieldTest e cname c) then .Matching else .NonMatching) := by
  induction opts with
  | nil => rfl
  | cons c rest ih =>
      by_cases h : fieldTest e cname c = true <;> simp [matchAnyOption, h, ih]

/-- The all-quantifier loop reports Matching exactly when every option
satisfies the comparison. -/
theorem matchAllOptions_spec (cname : String) (opts : List String) (e : Bool) :
    matchAllOptions cname opts e =
      (if opts.all (fun c => fieldTest e cname c) then .Matching else .NonMatching) := by
  induction opts with
  | nil => rfl
  | cons c rest ih =>
      by_cases h : fieldTest e cname c = true <;> simp [matchAllOptions, h, ih]

theorem Pattern.reset_old (p : Pattern) (idx : Nat) (s : Store) :
    (Pattern.reset p idx s).1 = p.st.matchId := by
  cases p <;> rfl

theorem Pattern.reset_st (p : Pattern) (idx : Nat) (s : Store)
    (h : p.isAny = false) :
    (Pattern.reset p idx s).2.1.st = (p.st.resetState idx s).1 := by
  cases p <;> first | rfl | simp [Pattern.isAny] at h

theorem Pattern.reset_store (p : Pattern) (idx : Nat) (s : Store)
    (h : p.isAny = false) :
    (Pattern.reset p idx s).2.2 = (p.st.resetState idx s).2 := by
  cases p <;> first | rfl | simp [Pattern.isAny] at h

/-- The AnyPattern reset override, unfolded: options reset left to right,
then the wrapper rebuilt from their live accumulators. -/
theorem Pattern.reset_anyPat (cfg : PatternConfig) (st : PatternState)
    (pats : List Pattern) (idx : Nat) (s : Store) :
    Pattern.reset (.anyPat cfg st pats) idx s =
      (st.matchId,
       .anyPat cfg
         { st with matchId := some (Pattern.resetList pats idx s).2.data.length }
         (Pattern.resetList pats idx s).1,
       ⟨(Pattern.resetList pats idx s).2.data ++
         [⟨(Pattern.resetList pats idx s).1.map
             (fun q => MatchItem.sub q.st.matchId), false, idx⟩]⟩) := rfl

theorem Pattern.reset_cfg (p : Pattern) (idx : Nat) (s : Store) :
    (Pattern.reset p idx s).2.1.cfg = p.cfg := by
  cases p <;> rfl

theorem PatternState.resetState_cur (st : PatternState) (idx : Nat) (s : Store) :
    (st.resetState idx s).1.cur_depth = some (-1) := by
  unfold PatternState.resetState
  cases h : st.matchId <;> simp

theorem PatternState.resetState_applied (st : PatternState) (idx : Nat) (s : Store) :
    (st.resetState idx s).1.applied = st.applied := by
  unfold PatternState.resetState
  cases h : st.matchId <;> simp

theorem PatternState.resetState_none (st : PatternState) (idx : Nat) (s : Store)
    (h : st.matchId = none) :
    (st.resetState idx s).1.matchId = none ∧ (st.resetState idx s).2 = s := by
  unfold PatternState.resetState
  rw [h]
  exact ⟨rfl, rfl⟩

theorem PatternState.resetState_some (st : PatternState) (idx : Nat) (s : Store)
    (i : Nat) (h : st.matchId = some i) :
    (st.resetState idx s).1.matchId = some s.data.length ∧
      (st.resetState idx s).2 = ⟨s.data ++ [⟨[], false, idx⟩]⟩ := by
  unfold PatternState.resetState
  rw [h]
  exact ⟨rfl, rfl⟩

theorem Pattern.reset_seqCur (p : Pattern) (idx : Nat) (s : Store) :
    (Pattern.reset p idx s).2.1.seqCur = 0 := by
  cases p <;> rfl

theorem Pattern.reset_seqCounts (p : Pattern) (idx : Nat) (s : Store) :
    (Pattern.reset p idx s).2.1.seqCounts = 0 := by
  cases p <;> rfl

theorem Pattern.psize_pos (p : Pattern) : 0 < Pattern.psize p := by
  cases p with
  | simple cfg st a b c d => exact Nat.one_pos
  | sequence cfg st pats reps cur counts =>
      show 0 < 1 + Pattern.psizeList pats
      omega
  | ignored cfg st pat =>
      show 0 < 1 + Pattern.psize pat
      omega
  | exceptPat cfg st m mm =>
      cases mm with
      | none =>
          show 0 < 1 + Pattern.psize m + 0
          omega
      | some q =>
          show 0 < 1 + Pattern.psize m + Pattern.psize q
          omega
  | anyPat cfg st pats =>
      show 0 < 1 + Pattern.psizeList pats
      omega

theorem Pattern.psizeList_pos (l : List Pattern) : 0 < Pattern.psizeList l := by
  cases l with
  | nil => exact Nat.one_pos
  | cons p rest =>
      show 0 < 1 + Pattern.psize p + Pattern.psizeList rest
      omega

/-- The store effect of the base reset: at most one fresh accumulator is
appended. -/
theorem resetState_storeGrow (st : PatternState) (idx : Nat) (s : Store) :
    ∃ ext, (st.resetState idx s).2.data = s.data ++ ext := by
  unfold PatternState.resetState
  cases st.matchId with
  | none => exact ⟨[], by simp⟩
  | some i => exact ⟨[⟨[], false, idx⟩], rfl⟩

/-- Every reset, the cascading AnyPattern override included, only appends to
the store (size-bounded induction over the pattern tree). -/
theorem reset_storeGrow (n : Nat) :
    (∀ (p : Pattern), Pattern.psize p ≤ n → ∀ (idx : Nat) (s : Store),
      ∃ ext, (Pattern.reset p idx s).2.2.data = s.data ++ ext) ∧
    (∀ (l : List Pattern), Pattern.psizeList l ≤ n → ∀ (idx : Nat) (s : Store),
      ∃ ext, (Pattern.resetList l idx s).2.data = s.data ++ ext) := by
  induction n with
  | zero =>
      constructor
      · intro p hp
        have h2 := Pattern.psize_pos p
        omega
      · intro l hl
        have h2 := Pattern.psizeList_pos l
        omega
  | succ n ih =>
      obtain ⟨ihp, ihl⟩ := ih
      constructor
      · intro p hp idx s
        cases p with
        | simple cfg st a b c d => exact resetState_storeGrow st idx s
        | sequence cfg st pats reps cur counts => exact resetState_storeGrow st idx s
        | ignored cfg st pat => exact resetState_storeGrow st idx s
        | exceptPat cfg st m mm => exact resetState_storeGrow st idx s
        | anyPat cfg st pats =>
            rw [Pattern.reset_anyPat]
            have hl : Pattern.psizeList pats ≤ n := by
              have hp2 : 1 + Pattern.psizeList pats ≤ n + 1 := hp
              omega
            obtain ⟨ext, hext⟩ := ihl pats hl idx s
            refine ⟨ext ++ [⟨(Pattern.resetList pats idx s).1.map
              (fun q => MatchItem.sub q.st.matchId), false, idx⟩], ?_⟩
            simp [hext]
      · intro l hl idx s
        cases l with
        | nil => exact ⟨[], by simp [Pattern.resetList]⟩
        | cons p rest =>
            have hl2 : 1 + Pattern.psize p + Pattern.psizeList rest ≤ n + 1 := hl
            have hp : Pattern.psize p ≤ n := by omega
            have hr : Pattern.psizeList rest ≤ n := by omega
            obtain ⟨e1, h1⟩ := ihp p hp idx s
            obtain ⟨e2, h2⟩ := ihl rest hr idx (Pattern.reset p idx s).2.2
            refine ⟨e1 ++ e2, ?_⟩
            show (Pattern.resetList rest idx (Pattern.reset p idx s).2.2).2.data = _
            rw [h2, h1, List.append_assoc]

/-- Resetting a pattern only appends to the store: existing accumulators
keep their ids and contents. -/
theorem Pattern.reset_store_mono (p : Pattern) (idx : Nat) (s : Store) (k : Nat)
    (pm : PatternMatch) (h : s.get k = some pm) :
    (Pattern.reset p idx s).2.2.get k = some pm := by
  obtain ⟨ext, hext⟩ := (reset_storeGrow (Pattern.psize p)).1 p le_rfl idx s
  unfold Store.get at h ⊢
  rw [hext]
  have hk : k < s.data.length := by
    rcases List.get?_eq_some.mp h with ⟨hlt, _⟩
    exact hlt
  rw [List.get?_append hk]
  exact h

theorem AnnotatorState.resetPatternAt_matchSet (ast : AnnotatorState) (j : Nat) :
    (ast.resetPatternAt j).matchSet = ast.matchSet := by
  unfold AnnotatorState.resetPatternAt
  cases h : ast.patterns.get? j <;> simp

theorem AnnotatorState.resetPatternAt_length (ast : AnnotatorState) (j : Nat) :
    (ast.resetPatternAt j).patterns.length = ast.patterns.length := by
  unfold AnnotatorState.resetPatternAt
  cases h : ast.patterns.get? j <;> simp

/-- Resetting the pattern at an index only appends to the store: existing
accumulators keep their ids and contents. -/
theorem AnnotatorState.resetPatternAt_store_mono (ast : AnnotatorState) (j : Nat)
    (i : Nat) (pm : PatternMatch) (h : ast.store.get i = some pm) :
    (ast.resetPatternAt j).store.get i = some pm := by
  unfold AnnotatorState.resetPatternAt
  cases hj : ast.patterns.get? j with
  | none => simpa using h
  | some p =>
      simp only
      exact Pattern.reset_store_mono p j ast.store i pm h

/-- Resetting the pattern at a valid index leaves it freshly reset (in the
sense its own reset gives the word: base and sequence resets clear the
anchor and install a fresh empty accumulator; the AnyPattern override
installs its rebuilt wrapper). -/
theorem resetPatternAt_fresh (ast : AnnotatorState) (j : Nat) (p : Pattern)
    (h : ast.patterns.get? j = some p) : ResetFresh (ast.resetPatternAt j) j := by
  have hj : j < ast.patterns.length := by
    rcases List.get?_eq_some.mp h with ⟨hlt, _⟩
    exact hlt
  unfold AnnotatorState.resetPatternAt
  rw [h]
  refine ⟨(Pattern.reset p j ast.store).2.1, ?_, ?_⟩
  · simp only
    rw [List.get?_eq_getElem?, List.getElem?_set_self]
    simpa using hj
  · cases hAny : p.isAny with
    | false =>
        refine Or.inl ⟨?_, ?_⟩
        · rw [Pattern.reset_st p j ast.store hAny, PatternState.resetState_cur]
        · intro i hi
          rw [Pattern.reset_st p j ast.store hAny] at hi
          cases hm : p.st.matchId with
          | none =>
              rw [(PatternState.resetState_none p.st j ast.store hm).1] at hi
              cases hi
          | some k =>
              obtain ⟨h1, h2⟩ := PatternState.resetState_some p.st j ast.store k hm
              rw [h1] at hi
              cases hi
              simp only
              rw [Pattern.reset_store p j ast.store hAny, h2]
              unfold Store.get
              exact List.get?_concat_length _ _
    | true =>
        obtain ⟨cfg, st, pats, rfl⟩ : ∃ cfg st pats, p = Pattern.anyPat cfg st pats := by
          cases p <;> first
            | exact ⟨_, _, _, rfl⟩
            | simp [Pattern.isAny] at hAny
        refine Or.inr ⟨cfg,
          ⟨st.cur_depth, st.applied,
            some (Pattern.resetList pats j ast.store).2.data.length⟩,
          (Pattern.resetList pats j ast.store).1, ?_, ?_⟩
        · rw [Pattern.reset_anyPat]
        · intro i hi
          simp only at hi
          cases hi
          simp only
          rw [Pattern.reset_anyPat]
          unfold Store.get
          exact List.get?_concat_length _ _

theorem AnnotatorState.killOne_length (ast : AnnotatorState) (v : Option Nat) :
    (ast.killOne v).patterns.length = ast.patterns.length := by
  unfold AnnotatorState.killOne
  cases v with
  | none => rfl
  | some i =>
      cases h : ast.store.get i with
      | none => simp [h]
      | some pm => simp [h, AnnotatorState.resetPatternAt_length]

theorem killFold_length (l : List (Option Nat)) :
    ∀ ast : AnnotatorState,
      ((l.foldl AnnotatorState.killOne ast)).patterns.length = ast.patterns.length := by
  induction l with
  | nil => intro ast; rfl
  | cons v rest ih =>
      intro ast
      rw [List.foldl_cons, ih, AnnotatorState.killOne_length]

theorem AnnotatorState.killAfter_length (ast : AnnotatorState) (ind : Nat) :
    (ast.killAfter ind).patterns.length = ast.patterns.length :=
  killFold_length _ ast

/-- The Matching and Completed arm of _handle_match leaves the pattern
freshly reset for the next node. -/
theorem handleHit_fresh (ast : AnnotatorState) (r : PatternMatchResponse) (j : Nat)
    (m : Option Nat) (hj : j < ast.patterns.length) :
    ResetFresh (Annotator.handleHit ast r j m).1 j := by
  have key : ∀ b : AnnotatorState, j < b.patterns.length → ResetFresh (b.resetPatternAt j) j := by
    intro b hb
    obtain ⟨q, hq⟩ : ∃ q, b.patterns.get? j = some q := by
      rw [List.get?_eq_get hb]
      exact ⟨_, rfl⟩
    exact resetPatternAt_fresh b j q hq
  unfold Annotator.handleHit
  simp only
  apply key
  split
  · exact hj
  · rw [AnnotatorState.killAfter_length]
    exact hj

/-- The applications-used counter survives every reset override. -/
theorem Pattern.reset_applied (p : Pattern) (idx : Nat) (s : Store) :
    (Pattern.reset p idx s).2.1.st.applied = p.st.applied := by
  cases hAny : p.isAny with
  | false => rw [Pattern.reset_st p idx s hAny, PatternState.resetState_applied]
  | true =>
      obtain ⟨cfg, st, pats, rfl⟩ : ∃ cfg st pats, p = Pattern.anyPat cfg st pats := by
        cases p <;> first
          | exact ⟨_, _, _, rfl⟩
          | simp [Pattern.isAny] at hAny
      rw [Pattern.reset_anyPat]
      rfl

/-- C9 counterexample: two reset overrides deviate from the base contract.
After consuming the heading, the section sequence has its cursor on the
second child (cur = 1) and reset rewinds it to 0, so a field other than the
anchor depth and the live accumulator does change.  And the union
combinator (AnyPattern) does not clear the anchor depth at all (it stays at
the recorded 4), and replaces its wrapper accumulator not with a fresh
empty one but with one pre-seeded with the options' freshly reset
accumulators. -/
theorem C9_counterexample :
    (seqAfterH2.seqCur = 1 ∧ (Pattern.reset seqAfterH2 0 ⟨[]⟩).2.1.seqCur = 0) ∧
    ((Pattern.reset anyUnionP 0 anyStore).1 = some 0 ∧
     (Pattern.reset anyUnionP 0 anyStore).2.1.st.cur_depth = some 4 ∧
     (Pattern.reset anyUnionP 0 anyStore).2.1.st.matchId = some 3 ∧
     (Pattern.reset anyUnionP 0 anyStore).2.2.get 3 =
       some ⟨[MatchItem.sub (some 2)], false, 0⟩) :=
  ⟨⟨rfl, rfl⟩, rfl, rfl, rfl, rfl⟩

/-- C9 (amended): every reset returns the previously live accumulator and
leaves the configuration, the applications-used counter and every existing
store entry untouched, so a pattern at its application cap remains capped
after reset (and a caller invoking apply twice on never-reset instances
sees the stale counter).  Every pattern except the union combinator clears
the anchor depth and replaces the live accumulator, when one is managed, by
a fresh empty one owned by the caller-supplied index; SequencePattern
additionally rewinds its cursor and per-child repeat counter to the first
child.  The AnyPattern reset override deviates further: the anchor depth is
not cleared, reset cascades into the options, and the replacement wrapper
accumulator is rebuilt non-empty, pre-seeded with the options' live
accumulators (see the counterexample for both deviations). -/
theorem C9_reset :
    (∀ (p : Pattern) (idx : Nat) (s : Store),
      (Pattern.reset p idx s).1 = p.st.matchId ∧
      (Pattern.reset p idx s).2.1.cfg = p.cfg ∧
      (Pattern.reset p idx s).2.1.st.applied = p.st.applied ∧
      (∀ (k : Nat) (pm : PatternMatch), s.get k = some pm →
        (Pattern.reset p idx s).2.2.get k = some pm) ∧
      (∀ (n : DomNode) (d : Option Int) (s2 : Store),
        p.cfg.applications = 1 → 1 ≤ p.st.applied →
        Pattern.matches (Pattern.reset p idx s).2.1 n d s2 =
          (.Unapplied, (Pattern.reset p idx s).2.1, s2))) ∧
    (∀ (p : Pattern) (idx : Nat) (s : Store), p.isAny = false →
      (Pattern.reset p idx s).2.1.st.cur_depth = some (-1) ∧
      (p.st.matchId = none →
        (Pattern.reset p idx s).2.1.st.matchId = none ∧
        (Pattern.reset p idx s).2.2 = s) ∧
      (∀ i, p.st.matchId = some i →
        (Pattern.reset p idx s).2.1.st.matchId = some s.data.length ∧
        (Pattern.reset p idx s).2.2.get s.data.length = some ⟨[], false, idx⟩) ∧
      (Pattern.reset p idx s).2.1.seqCur = 0 ∧
      (Pattern.reset p idx s).2.1.seqCounts = 0) ∧
    (∀ (cfg : PatternConfig) (st : PatternState) (pats : List Pattern)
      (idx : Nat) (s : Store),
      (Pattern.reset (.anyPat cfg st pats) idx s).2.1.st.cur_depth =
        st.cur_depth ∧
      (Pattern.reset (.anyPat cfg st pats) idx s).2.1 =
        .anyPat cfg
          ⟨st.cur_depth, st.applied,
            some (Pattern.resetList pats idx s).2.data.length⟩
          (Pattern.resetList pats idx s).1 ∧
      (Pattern.reset (.anyPat cfg st pats) idx s).2.2.get
          (Pattern.resetList pats idx s).2.data.length =
        some ⟨(Pattern.resetList pats idx s).1.map
            (fun q => MatchItem.sub q.st.matchId), false, idx⟩) := by
  refine ⟨?_, ?_, ?_⟩
  · intro p idx s
    refine ⟨Pattern.reset_old p idx s, Pattern.reset_cfg p idx s,
      Pattern.reset_applied p idx s,
      fun k pm hk => Pattern.reset_store_mono p idx s k pm hk, ?_⟩
    intro n d s2 hcap hused
    refine Pattern.matches_capped _ n d s2 ?_ ?_
    · rw [Pattern.reset_cfg, hcap]
      decide
    · rw [Pattern.reset_cfg, Pattern.reset_applied, hcap]
      exact hused
  · intro p idx s hAny
    refine ⟨?_, ?_, ?_, Pattern.reset_seqCur p idx s,
      Pattern.reset_seqCounts p idx s⟩
    · rw [Pattern.reset_st p idx s hAny, PatternState.resetState_cur]
    · intro h
      obtain ⟨h1, h2⟩ := PatternState.resetState_none p.st idx s h
      rw [Pattern.reset_st p idx s hAny, Pattern.reset_store p idx s hAny]
      exact ⟨h1, h2⟩
    · intro i h
      obtain ⟨h1, h2⟩ := PatternState.resetState_some p.st idx s i h
      rw [Pattern.reset_st p idx s hAny, Pattern.reset_store p idx s hAny]
      refine ⟨h1, ?_⟩
      rw [h2]
      unfold Store.get
      exact List.get?_concat_length _ _
  · intro cfg st pats idx s
    refine ⟨?_, ?_, ?_⟩
    · rw [Pattern.reset_anyPat]
      rfl
    · rw [Pattern.reset_anyPat]
    · rw [Pattern.reset_anyPat]
      unfold Store.get
      exact List.get?_concat_length _ _

theorem C9_witness :
    Pattern.matches (Pattern.reset cappedTagP 0 ⟨[]⟩).2.1 nodeP1 (some 0) ⟨[]⟩ =
      (.Unapplied, (Pattern.reset cappedTagP 0 ⟨[]⟩).2.1, ⟨[]⟩) := by
  exact (C9_reset.1 cappedTagP 0 ⟨[]⟩).2.2.2.2 nodeP1 (some 0) ⟨[]⟩ rfl (by decide)

/-- C8: under the any quantifier the field match is Matching exactly when
some configured option satisfies the comparison and NonMatching otherwise;
under the all quantifier it is Matching unless some option fails the
comparison.  A tag pattern configured with the single tag p answers
Matching exactly for nodes whose authored tag upper-cases to P (i.e. the
tag is p in any letter case) and NonMatching for every other node; and
after either outcome the node pass resets the pattern, so its accumulator
for the next node starts empty. -/
theorem C8_field_pattern :
    (∀ (el : DomNode) (fname : String) (opts : List String) (e : Bool),
      (SimplePattern.match_field el fname opts e false = .Matching ↔
        ∃ c ∈ opts, fieldTest e (getField el fname) c = true) ∧
      (SimplePattern.match_field el fname opts e false = .NonMatching ↔
        ¬ ∃ c ∈ opts, fieldTest e (getField el fname) c = true)) ∧
    (∀ (el : DomNode) (fname : String) (opts : List String) (e : Bool),
      (SimplePattern.match_field el fname opts e true = .Matching ↔
        ∀ c ∈ opts, fieldTest e (getField el fname) c = true) ∧
      (SimplePattern.match_field el fname opts e true = .NonMatching ↔
        ¬ ∀ c ∈ opts, fieldTest e (getField el fname) c = true)) ∧
    (∀ (ap : Int) (mid : Option Nat) (n : DomNode) (d : Option Int) (s : Store),
      (Pattern.matches
          ((TagPattern.make ["p"] TagPattern.defaultCfg).setSt ⟨some (-1), ap, mid⟩)
          n d s).1 =
        (if strUpper n.tag = "P" then .Matching else .NonMatching)) ∧
    (∀ (ast : AnnotatorState) (r : PatternMatchResponse) (j : Nat) (m : Option Nat)
        (pat : Pattern), ast.patterns.get? j = some pat →
      (r = .Matching ∨ r = .NonMatching) →
      ResetFresh (Annotator._handle_match ast r j m).1 j) := by
  refine ⟨?_, ?_, ?_, ?_⟩
  · intro el fname opts e
    by_cases h : opts.any (fun c => fieldTest e (getField el fname) c) = true <;>
      simp [SimplePattern.match_field, matchAnyOption_spec, h] <;>
      simpa [List.any_eq_true] using h
  · intro el fname opts e
    by_cases h : opts.all (fun c => fieldTest e (getField el fname) c) = true <;>
      simp [SimplePattern.match_field, matchAllOptions_spec, h] <;>
      simpa [List.all_eq_true] using h
  · intro ap mid n d s
    rw [show (TagPattern.make ["p"] TagPattern.defaultCfg).setSt ⟨some (-1), ap, mid⟩ =
        Pattern.simple TagPattern.defaultCfg ⟨some (-1), ap, mid⟩ "tagName" ["P"]
          true false from rfl]
    rw [Pattern.matches_eq]
    have hsc : (Pattern.simple TagPattern.defaultCfg ⟨some (-1), ap, mid⟩ "tagName"
        ["P"] true false).unappliedShortCircuit d = false := by
      simp [Pattern.unappliedShortCircuit, Pattern.cfg, Pattern.st,
        TagPattern.defaultCfg, curDepthNonneg]
    rw [hsc]
    simp only [Bool.false_eq_true, if_false]
    rw [Pattern.runMatcherN_simple]
    simp only
    rw [Pattern.postMatch_resp]
    simp [SimplePattern.match_field, matchAnyOption, fieldTest, getField,
      DomNode.tagName]
  · intro ast r j m pat hget hr
    have hj : j < ast.patterns.length := by
      rcases List.get?_eq_some.mp hget with ⟨hlt, _⟩
      exact hlt
    rcases hr with h | h <;> subst h
    · exact handleHit_fresh ast .Matching j m hj
    · obtain ⟨p, h1, hd⟩ := resetPatternAt_fresh ast j pat hget
      exact ⟨p, h1, hd⟩

theorem C8_witness :
    (Pattern.matches ((TagPattern.make ["p"] TagPattern.defaultCfg).setSt
        ⟨some (-1), 0, none⟩) nodeP1 (some 0) ⟨[]⟩).1 =
      (if strUpper nodeP1.tag = "P" then .Matching else .NonMatching) ∧
    ResetFresh
      (Annotator._handle_match (Annotator.init [tagPatternP]) .NonMatching 0
        (some 0)).1 0 :=
  ⟨C8_field_pattern.2.2.1 0 none nodeP1 (some 0) ⟨[]⟩,
   C8_field_pattern.2.2.2 (Annotator.init [tagPatternP]) .NonMatching 0 (some 0) _
     rfl (Or.inr rfl)⟩

theorem allDisabled_matchId {p : Pattern} (h : AllDisabled p) : p.st.matchId = none := by
  cases h <;> assumption

theorem allDisabled_subs {p : Pattern} (h : AllDisabled p) : p.subsDisabled := by
  cases h with
  | simple cfg st f o e a hm => trivial
  | sequence cfg st pats reps cur counts hm hk => exact hk
  | ignored cfg st pat hm hk => exact hk
  | exceptPat cfg st m mm hm hk => exact hk

/-- A pattern whose whole subtree has handling disabled never touches the
store (its own push is a no-op and its children have none to push into);
stated jointly for the three layers of the matching recursion. -/
theorem disabled_store (fuel : Nat) :
    (∀ p, AllDisabled p → ∀ (n : DomNode) (d : Option Int) (s : Store),
      (Pattern.matchesN fuel p n d s).2.2 = s) ∧
    (∀ p, p.subsDisabled → ∀ (n : DomNode) (d : Option Int) (s : Store),
      (Pattern.runMatcherN fuel p n d s).2.2 = s) ∧
    (∀ todo, (∀ p ∈ todo, AllDisabled p) →
      ∀ (reps : List (Int × Int)) (counts : Int) (n : DomNode) (d : Option Int)
        (s : Store), (Pattern.seqAuxN fuel todo reps counts n d s).2.2.2.2 = s) := by
  induction fuel with
  | zero =>
      exact ⟨fun p _ n d s => rfl, fun p _ n d s => rfl,
        fun todo _ reps counts n d s => rfl⟩
  | succ f ih =>
      obtain ⟨ihm, ihr, ihs⟩ := ih
      refine ⟨?_, ?_, ?_⟩
      · intro p hall n d s
        rw [Pattern.matchesN_succ]
        split
        · rfl
        · simp only
          rw [Pattern.postMatch_store, Pattern.runMatcherN_st,
            allDisabled_matchId hall]
          simp only [ite_self]
          exact ihr p (allDisabled_subs hall) n d s
      · intro p hsub n d s
        cases p with
        | simple cfg st fn fo e a => rfl
        | sequence cfg st pats reps cur counts =>
            rw [Pattern.runMatcherN_sequence]
            exact ihs (pats.drop cur)
              (fun q hq => hsub q (List.mem_of_mem_drop hq)) _ _ n d s
        | ignored cfg st pat =>
            rw [Pattern.runMatcherN_ignored]
            exact ihm pat hsub n none s
        | exceptPat cfg st m mm =>
            rw [Pattern.runMatcherN_exceptPat]
            exact ihm m hsub n d s
        | anyPat cfg st pats => exact hsub.elim
      · intro todo hall reps counts n d s
        cases todo with
        | nil => rfl
        | cons pattern rest =>
            rw [Pattern.seqAuxN_cons]
            simp only
            have h1 : AllDisabled pattern := hall pattern (by simp)
            have hrest : ∀ p ∈ rest, AllDisabled p := fun p hp =>
              hall p (List.mem_cons_of_mem _ hp)
            have hm := ihm pattern h1 n d s
            rw [hm]
            split
            · split
              · rfl
              · exact ihs rest hrest _ _ n d s
            · split
              · split <;> rfl
              · rfl

/-- The store effect of one matches call on a pattern with disabled
children: the node is pushed onto this pattern's own live accumulator (when
it has one) exactly on a Matching or Incomplete response; every other
response leaves the store untouched. -/
theorem Pattern.matches_store_subsDisabled (p : Pattern) (n : DomNode)
    (d : Option Int) (s : Store) (h : p.subsDisabled)
    (r : PatternMatchResponse) (p1 : Pattern) (s1 : Store)
    (he : Pattern.matches p n d s = (r, p1, s1)) :
    s1 = (if r = .Matching ∨ r = .Incomplete then
      (match p.st.matchId with | some i => s.pushNode i n | none => s) else s) := by
  rw [Pattern.matches_eq] at he
  by_cases hsc : p.unappliedShortCircuit d = true
  · rw [if_pos hsc] at he
    have hr : r = .Unapplied := by
      rw [show r = ((r, p1, s1) : PatternMatchResponse × Pattern × Store).1 from rfl,
        ← he]
    have hs : s1 = s := by
      rw [show s1 = ((r, p1, s1) : PatternMatchResponse × Pattern × Store).2.2 from rfl,
        ← he]
    subst hr
    simp [hs]
  · rw [if_neg hsc] at he
    simp only at he
    have h1 : (Pattern.postMatch (Pattern.runMatcherN (2 * Pattern.psize p + 1) p n d s).1
        (Pattern.runMatcherN (2 * Pattern.psize p + 1) p n d s).2.1 n d
        (Pattern.runMatcherN (2 * Pattern.psize p + 1) p n d s).2.2).1 = r := by
      rw [he]
    have h2 : (Pattern.postMatch (Pattern.runMatcherN (2 * Pattern.psize p + 1) p n d s).1
        (Pattern.runMatcherN (2 * Pattern.psize p + 1) p n d s).2.1 n d
        (Pattern.runMatcherN (2 * Pattern.psize p + 1) p n d s).2.2).2.2 = s1 := by
      rw [he]
    rw [Pattern.postMatch_resp] at h1
    rw [Pattern.postMatch_store, Pattern.runMatcherN_st,
      (disabled_store (2 * Pattern.psize p + 1)).2.1 p h n d s] at h2
    rw [← h2, h1]

/-- C5 counterexample: a sequence demanding at least two paragraphs answers
Incomplete on the first paragraph, and that Incomplete response does record
the anchor depth (cur_depth goes from -1 to the offered depth 7), contrary
to the claim that only Matching records the anchor. -/
theorem C5_counterexample :
    seqP2.st.cur_depth = some (-1) ∧
    (Pattern.matches seqP2 nodeP1 (some 7) ⟨[]⟩).1 = .Incomplete ∧
    (Pattern.matches seqP2 nodeP1 (some 7) ⟨[]⟩).2.1.st.cur_depth = some 7 :=
  ⟨rfl, rfl, rfl⟩

/-- C5 (amended): past the precondition checks, a Matching or Incomplete
response appends the node to the live accumulator and also records the
offered depth as the anchor when none is recorded yet; Matching
additionally increments the applications-used counter while Incomplete
leaves it alone; every other response leaves the accumulator, the counter
and the anchor unchanged.  (The live accumulator reference itself never
changes across a matches call.) -/
theorem C5_side_effects (p : Pattern) (n : DomNode) (d : Option Int) (s : Store)
    (hsub : p.subsDisabled) (r : PatternMatchResponse) (p1 : Pattern) (s1 : Store)
    (he : Pattern.matches p n d s = (r, p1, s1)) :
    (p1.st.matchId = p.st.matchId) ∧
    ((r = .Matching ∨ r = .Incomplete) →
      (s1 = (match p.st.matchId with | some i => s.pushNode i n | none => s)) ∧
      p1.st.cur_depth = (if p.st.cur_depth = some (-1) then d else p.st.cur_depth)) ∧
    (r = .Matching → p1.st.applied = p.st.applied + 1) ∧
    (r = .Incomplete → p1.st.applied = p.st.applied) ∧
    ((r ≠ .Matching ∧ r ≠ .Incomplete) → p1.st = p.st ∧ s1 = s) := by
  have hst := Pattern.matches_st p n d s
  rw [he] at hst
  have hstore := Pattern.matches_store_subsDisabled p n d s hsub r p1 s1 he
  simp only at hst hstore
  by_cases hmi : r = .Matching ∨ r = .Incomplete
  · rw [if_pos hmi] at hst hstore
    refine ⟨by rw [hst], fun _ => ⟨hstore, by rw [hst]⟩, ?_, ?_, ?_⟩
    · intro hr
      rw [hst, hr]
      simp
    · intro hr
      subst hr
      rw [hst]
      simp
    · intro ⟨hr1, hr2⟩
      rcases hmi with h | h
      · exact absurd h hr1
      · exact absurd h hr2
  · rw [if_neg hmi] at hst hstore
    refine ⟨by rw [hst], fun h => absurd h hmi, ?_, ?_, fun _ => ⟨hst, hstore⟩⟩
    · intro hr
      exact absurd (Or.inl hr) hmi
    · intro hr
      exact absurd (Or.inr hr) hmi

theorem C5_witness :
    (Pattern.matches seqP2 nodeP1 (some 7) ⟨[]⟩).2.1.st.applied = seqP2.st.applied := by
  have h := C5_side_effects seqP2 nodeP1 (some 7) ⟨[]⟩
    (by
      intro q hq
      simp [seqP2, SequencePattern.make] at hq
      subst hq
      exact AllDisabled.simple _ _ _ _ _ _ rfl)
    (Pattern.matches seqP2 nodeP1 (some 7) ⟨[]⟩).1
    (Pattern.matches seqP2 nodeP1 (some 7) ⟨[]⟩).2.1
    (Pattern.matches seqP2 nodeP1 (some 7) ⟨[]⟩).2.2 rfl
  exact h.2.2.2.1 rfl

/-- C1: the section sequence (one heading, then one or more non-headings)
run by the Annotator over the flat sibling list [h2, p, p, h3, p] produces
exactly two matches, {h2, p, p} and {h3, p}.  On the h3 node the built-up
sequence reports Completed (the match {h2, p, p} is finalized without
consuming h3), and the orchestrator immediately re-offers h3 to the freshly
reset sequence (two offers of h3 to pattern 0 in the trace), which begins
the second match with it. -/
theorem C1_section_rollover :
    (match astMidC1.patterns.get? 0 with
      | some p => (Pattern.matches p nodeH3 (some 0) astMidC1.store).1
      | none => .Unapplied) = .Completed ∧
    astH3C1.2.2 = [(0, nodeH3), (0, nodeH3)] ∧
    (astH3C1.1).matchSet = [some 0, some 1] ∧
    (astH3C1.1).store.get 1 = some ⟨[.node nodeH3], false, 0⟩ ∧
    (Annotator.apply [sectionSeq] rootC1 (-1)).1.matchSet = [some 0, some 1] ∧
    (Annotator.apply [sectionSeq] rootC1 (-1)).1.store.get 0 =
      some ⟨[.node nodeH2, .node nodeP1, .node nodeP2], false, 0⟩ ∧
    (Annotator.apply [sectionSeq] rootC1 (-1)).1.store.get 1 =
      some ⟨[.node nodeH3, .node nodeP4], false, 0⟩ ∧
    (Annotator.apply [sectionSeq] rootC1 (-1)).2.2 =
      some [(some 0, ⟨[.node nodeH2, .node nodeP1, .node nodeP2], false, 0⟩),
            (some 0, ⟨[.node nodeH3, .node nodeP4], false, 0⟩)] :=
  ⟨rfl, rfl, rfl, rfl, rfl, rfl, rfl, rfl⟩

theorem wsAdd_mem (ws : List (Option Nat)) (m : Option Nat) : m ∈ wsAdd ws m := by
  unfold wsAdd
  split
  · assumption
  · simp

theorem wsAdd_nodup (ws : List (Option Nat)) (m : Option Nat) (h : ws.Nodup) :
    (wsAdd ws m).Nodup := by
  unfold wsAdd
  by_cases hm : m ∈ ws
  · simp [hm, h]
  · simp only [hm, if_false]
    simp [List.nodup_append, h, hm]

theorem wsIndexOf_get (ws : List (Option Nat)) (m : Option Nat) (h : m ∈ ws) :
    ws.get? (wsIndexOf ws m) = some m := by
  induction ws with
  | nil => cases h
  | cons x rest ih =>
      unfold wsIndexOf
      by_cases hx : x = m
      · simp [hx]
      · simp only [hx, if_false]
        have hm : m ∈ rest := by
          cases h with
          | head => exact absurd rfl hx
          | tail _ h2 => exact h2
        simpa using ih hm

theorem wsDelete_middle (pre rest : List (Option Nat)) (v : Option Nat)
    (hnd : (pre ++ v :: rest).Nodup) : wsDelete (pre ++ v :: rest) v = pre ++ rest := by
  obtain ⟨h1, h2, hdisj⟩ := List.nodup_append.mp hnd
  have hvpre : v ∉ pre := fun hv => hdisj hv (List.mem_cons_self v rest)
  have hvrest : v ∉ rest := (List.nodup_cons.mp h2).1
  unfold wsDelete
  rw [List.filter_append]
  have e1 : pre.filter (fun x => x ≠ v) = pre := by
    apply List.filter_eq_self.mpr
    intro a ha
    simp only [ne_eq, decide_eq_true_eq]
    intro hav
    exact hvpre (hav ▸ ha)
  have e2 : (v :: rest).filter (fun x => x ≠ v) = rest := by
    rw [List.filter_cons]
    split
    · next hcond =>
        exfalso
        revert hcond
        simp
    · apply List.filter_eq_self.mpr
      intro a ha
      simp only [ne_eq, decide_eq_true_eq]
      intro hav
      exact hvrest (hav ▸ ha)
  rw [e1, e2]

theorem AnnotatorState.killOne_matchSet (ast : AnnotatorState) (v : Option Nat) :
    (ast.killOne v).matchSet = wsDelete ast.matchSet v := by
  unfold AnnotatorState.killOne
  cases v with
  | none => rfl
  | some i =>
      cases hs : ast.store.get i with
      | none => simp [hs]
      | some pm => simp [hs, AnnotatorState.resetPatternAt_matchSet]

theorem AnnotatorState.killOne_store_mono (ast : AnnotatorState) (v : Option Nat)
    (i : Nat) (pm : PatternMatch) (h : ast.store.get i = some pm) :
    (ast.killOne v).store.get i = some pm := by
  unfold AnnotatorState.killOne
  cases v with
  | none => simpa using h
  | some k =>
      cases hs : ast.store.get k with
      | none => simpa [hs] using h
      | some pm2 => simpa [hs] using AnnotatorState.resetPatternAt_store_mono ast pm2.parent i pm h

theorem AnnotatorState.resetPatternAt_get_ne (ast : AnnotatorState) (j k : Nat)
    (h : j ≠ k) : (ast.resetPatternAt j).patterns.get? k = ast.patterns.get? k := by
  unfold AnnotatorState.resetPatternAt
  cases hj : ast.patterns.get? j with
  | none => rfl
  | some q =>
      simp only
      exact List.get?_set_ne _ _ h

/-- Freshness only looks at the pattern at its index and at the store
entries it names, so it survives any step that keeps that pattern slot and
the existing store entries. -/
theorem ResetFresh.mono {ast astNew : AnnotatorState} (k : Nat)
    (hpat : astNew.patterns.get? k = ast.patterns.get? k)
    (hst : ∀ (i : Nat) (pm : PatternMatch),
      ast.store.get i = some pm → astNew.store.get i = some pm)
    (h : ResetFresh ast k) : ResetFresh astNew k := by
  obtain ⟨p, hp, hd⟩ := h
  refine ⟨p, by rw [hpat]; exact hp, ?_⟩
  rcases hd with ⟨hc, hs⟩ | ⟨cfg, st, pats, hpe, hs⟩
  · exact Or.inl ⟨hc, fun i hi => hst i _ (hs i hi)⟩
  · exact Or.inr ⟨cfg, st, pats, hpe, fun i hi => hst i _ (hs i hi)⟩

/-- Resetting any pattern preserves freshness recorded anywhere (resetting
the same index re-establishes it, other indices are untouched and the store
only grows). -/
theorem resetPatternAt_fresh_pres (ast : AnnotatorState) (j k : Nat)
    (h : ResetFresh ast k) : ResetFresh (ast.resetPatternAt j) k := by
  by_cases hjk : j = k
  · subst hjk
    obtain ⟨p, hp, -⟩ := h
    exact resetPatternAt_fresh ast j p hp
  · exact ResetFresh.mono k (AnnotatorState.resetPatternAt_get_ne ast j k hjk)
      (fun i pm hi => AnnotatorState.resetPatternAt_store_mono ast j i pm hi) h

theorem killOne_fresh_pres (ast : AnnotatorState) (v : Option Nat) (k : Nat)
    (h : ResetFresh ast k) : ResetFresh (ast.killOne v) k := by
  unfold AnnotatorState.killOne
  cases v with
  | none => exact h
  | some i =>
      cases hs : ast.store.get i with
      | none => simpa [hs] using h
      | some pm =>
          simp only [hs]
          obtain ⟨p, hp, hd⟩ := resetPatternAt_fresh_pres ast pm.parent k h
          exact ⟨p, hp, hd⟩

theorem killFold_matchSet :
    ∀ (victims pre : List (Option Nat)) (ast : AnnotatorState),
      ast.matchSet = pre ++ victims → (pre ++ victims).Nodup →
      ((victims.foldl AnnotatorState.killOne ast)).matchSet = pre := by
  intro victims
  induction victims with
  | nil =>
      intro pre ast h _
      simpa using h
  | cons v rest ih =>
      intro pre ast h hnd
      rw [List.foldl_cons]
      have h1 : (ast.killOne v).matchSet = pre ++ rest := by
        rw [AnnotatorState.killOne_matchSet, h]
        exact wsDelete_middle pre rest v hnd
      have h2 : (pre ++ rest).Nodup := by
        refine List.Nodup.sublist ?_ hnd
        exact List.Sublist.append_left (List.sublist_cons_self v rest) pre
      exact ih pre (ast.killOne v) h1 h2

theorem killFold_fresh_pres :
    ∀ (l : List (Option Nat)) (ast : AnnotatorState) (k : Nat),
      ResetFresh ast k → ResetFresh (l.foldl AnnotatorState.killOne ast) k := by
  intro l
  induction l with
  | nil => intro ast k h; exact h
  | cons v rest ih =>
      intro ast k h
      rw [List.foldl_cons]
      exact ih _ k (killOne_fresh_pres ast v k h)

/-- Every victim of the kill loop has its owning pattern freshly reset in
the final state. -/
theorem killFold_fresh_estab :
    ∀ (l : List (Option Nat)) (ast : AnnotatorState),
      ∀ v ∈ l, ∀ (i : Nat) (pm : PatternMatch), v = some i →
        ast.store.get i = some pm → pm.parent < ast.patterns.length →
        ResetFresh (l.foldl AnnotatorState.killOne ast) pm.parent := by
  intro l
  induction l with
  | nil =>
      intro ast v hv
      cases hv
  | cons w rest ih =>
      intro ast v hv i pm hvi hstore hlen
      rw [List.foldl_cons]
      rcases List.mem_cons.mp hv with h | h
      · subst h
        subst hvi
        have hest : ResetFresh (ast.killOne (some i)) pm.parent := by
          obtain ⟨q, hq⟩ : ∃ q, ast.patterns.get? pm.parent = some q := by
            rw [List.get?_eq_get hlen]
            exact ⟨_, rfl⟩
          unfold AnnotatorState.killOne
          simp only [hstore]
          obtain ⟨p, hp, hd⟩ := resetPatternAt_fresh ast pm.parent q hq
          exact ⟨p, hp, hd⟩
        exact killFold_fresh_pres rest _ pm.parent hest
      · exact ih (ast.killOne w) v h i pm hvi
          (AnnotatorState.killOne_store_mono ast w i pm hstore)
          (by rw [AnnotatorState.killOne_length]; exact hlen)

theorem Annotator.handleHit_break_eq (ast : AnnotatorState)
    (r : PatternMatchResponse) (j : Nat) (m : Option Nat) :
    (Annotator.handleHit ast r j m).2.break_flag =
      (!(match ast.patterns.get? j with | some p => p.cfg.compounds | none => true) ||
        (match ast.patterns.get? j with | some p => p.cfg.terminal | none => false)) := rfl

theorem Annotator.handleHit_resp_eq (ast : AnnotatorState)
    (r : PatternMatchResponse) (j : Nat) (m : Option Nat) :
    (Annotator.handleHit ast r j m).2.resp =
      (if (match ast.patterns.get? j with | some p => p.cfg.terminal | none => false)
       then PatternMatchResponse.Break else r) := rfl

theorem Annotator.handleHit_state_eq (ast : AnnotatorState)
    (r : PatternMatchResponse) (j : Nat) (m : Option Nat) :
    (Annotator.handleHit ast r j m).1 =
      ((if (match ast.patterns.get? j with | some p => p.cfg.compounds | none => true)
        then { ast with matchSet := wsAdd ast.matchSet m }
        else AnnotatorState.killAfter { ast with matchSet := wsAdd ast.matchSet m }
          (wsIndexOf (wsAdd ast.matchSet m) m)).resetPatternAt j) := rfl

theorem Annotator.handle_match_matching (ast : AnnotatorState) (j : Nat)
    (m : Option Nat) :
    Annotator._handle_match ast .Matching j m = Annotator.handleHit ast .Matching j m := rfl

theorem Annotator.handle_match_completed (ast : AnnotatorState) (j : Nat)
    (m : Option Nat) :
    Annotator._handle_match ast .Completed j m =
      Annotator.handleHit ast .Completed j m := rfl

theorem get?_set_self_of_get? {α : Type} (l : List α) (j : Nat) (a y : α)
    (h : l.get? j = some a) : (l.set j y).get? j = some y := by
  have hj : j < l.length := by
    rcases List.get?_eq_some.mp h with ⟨hlt, _⟩
    exact hlt
  rw [List.get?_eq_getElem?, List.getElem?_set_self]
  simpa using hj

theorem Annotator.matchNodeAux_succ (fuel : Nat) (ast : AnnotatorState)
    (node : DomNode) (depth : Int) (j : Nat) (resp : PatternMatchResponse) :
    Annotator.matchNodeAux (fuel + 1) ast node depth j resp =
      (match ast.patterns.get? j with
       | none => (ast, resp, [])
       | some pat =>
           let r := pat.matches node (some depth) ast.store
           let ast1 : AnnotatorState :=
             { ast with patterns := ast.patterns.set j r.2.1, store := r.2.2 }
           let m := r.2.1.st.matchId
           let h1 := Annotator._handle_match ast1 r.1 j m
           if h1.2.resp = .Completed then
             match (h1.1).patterns.get? j with
             | none => (h1.1, r.1, [(j, node)])
             | some pat2 =>
                 let r2 := pat2.matches node (some depth) (h1.1).store
                 let ast2 : AnnotatorState :=
                   { h1.1 with
                     patterns := (h1.1).patterns.set j r2.2.1, store := r2.2.2 }
                 let m2 := r2.2.1.st.matchId
                 let h2 := Annotator._handle_match ast2 r2.1 j m2
                 if h1.2.break_flag || h2.2.break_flag then
                   (h2.1, r2.1, [(j, node), (j, node)])
                 else
                   let q := Annotator.matchNodeAux fuel h2.1 node depth (j + 1) r2.1
                   (q.1, q.2.1, (j, node) :: (j, node) :: q.2.2)
           else
             if h1.2.break_flag then (h1.1, r.1, [(j, node)])
             else
               let q := Annotator.matchNodeAux fuel h1.1 node depth (j + 1) r.1
               (q.1, q.2.1, (j, node) :: q.2.2)) := rfl

/-- The Matching or Completed arm of _handle_match for a non-compounding
pattern: break flag set, working set truncated right after the reported
accumulator, owners of the dropped accumulators freshly reset. -/
theorem handleHit_noncompound (ast : AnnotatorState) (j : Nat) (m : Option Nat)
    (pat : Pattern) (r : PatternMatchResponse)
    (hget : ast.patterns.get? j = some pat)
    (hcomp : pat.cfg.compounds = false)
    (hnd : ast.matchSet.Nodup) :
    (Annotator.handleHit ast r j m).2.break_flag = true ∧
    (Annotator.handleHit ast r j m).1.matchSet =
      (wsAdd ast.matchSet m).take (wsIndexOf (wsAdd ast.matchSet m) m + 1) ∧
    (∀ v ∈ (wsAdd ast.matchSet m).drop (wsIndexOf (wsAdd ast.matchSet m) m + 1),
      ∀ (i : Nat) (pm : PatternMatch), v = some i → ast.store.get i = some pm →
        pm.parent < ast.patterns.length →
        ResetFresh (Annotator.handleHit ast r j m).1 pm.parent) := by
  refine ⟨?_, ?_, ?_⟩
  · rw [Annotator.handleHit_break_eq, hget]
    simp [hcomp]
  · rw [Annotator.handleHit_state_eq, hget]
    simp only [hcomp, Bool.false_eq_true, if_false]
    rw [AnnotatorState.resetPatternAt_matchSet]
    unfold AnnotatorState.killAfter
    apply killFold_matchSet
    · exact (List.take_append_drop _ _).symm
    · rw [List.take_append_drop]
      exact wsAdd_nodup _ _ hnd
  · intro v hv i pm hvi hstore hlen
    rw [Annotator.handleHit_state_eq, hget]
    simp only [hcomp, Bool.false_eq_true, if_false]
    apply resetPatternAt_fresh_pres
    unfold AnnotatorState.killAfter
    exact killFold_fresh_estab _ _ v hv i pm hvi hstore hlen

/-- A non-compounding Matching or Completed response at index j confines
the rest of the node pass to index j: every offer recorded from that point
on targets j (no later pattern sees the node). -/
theorem matchNodeAux_noncompound_local (fuel : Nat) (ast : AnnotatorState)
    (node : DomNode) (depth : Int) (j : Nat) (r0 : PatternMatchResponse)
    (pat : Pattern) (hget : ast.patterns.get? j = some pat)
    (hcomp : pat.cfg.compounds = false)
    (hr : (Pattern.matches pat node (some depth) ast.store).1 = .Matching ∨
          (Pattern.matches pat node (some depth) ast.store).1 = .Completed) :
    (Annotator.matchNodeAux (fuel + 1) ast node depth j r0).2.2 = [(j, node)] ∨
    (Annotator.matchNodeAux (fuel + 1) ast node depth j r0).2.2 =
      [(j, node), (j, node)] := by
  have hget1 : (ast.patterns.set j
        (Pattern.matches pat node (some depth) ast.store).2.1).get? j =
      some (Pattern.matches pat node (some depth) ast.store).2.1 :=
    get?_set_self_of_get? _ _ _ _ hget
  have hcfg : (Pattern.matches pat node (some depth) ast.store).2.1.cfg = pat.cfg :=
    Pattern.matches_cfg pat node (some depth) ast.store
  rw [Annotator.matchNodeAux_succ, hget]
  simp only
  rcases hr with hX | hX
  · rw [hX, Annotator.handle_match_matching, Annotator.handleHit_resp_eq,
      Annotator.handleHit_break_eq, hget1]
    simp only [hcfg, hcomp]
    by_cases ht : pat.cfg.terminal = true <;> simp [ht]
  · rw [hX, Annotator.handle_match_completed, Annotator.handleHit_resp_eq,
      Annotator.handleHit_break_eq, hget1]
    simp only [hcfg, hcomp]
    by_cases ht : pat.cfg.terminal = true
    · simp [ht]
    · simp only [ht, Bool.false_eq_true, if_false, Bool.not_false, Bool.true_or,
        if_pos]
      cases hh : (Annotator.handleHit
          { ast with
            patterns := ast.patterns.set j
              (Pattern.matches pat node (some depth) ast.store).2.1,
            store := (Pattern.matches pat node (some depth) ast.store).2.2 }
          .Completed j
          (Pattern.matches pat node (some depth) ast.store).2.1.st.matchId).1.patterns.get? j with
      | none => simp [hh]
      | some pat2 => simp [hh]

/-- C2: in a node pass, when a pattern whose compounds flag is false answers
Matching or Completed, handling that response sets the break flag, truncates
the working set right after that pattern's accumulator (whose position the
snapshot index gives), freshly resets the owning pattern of every
accumulator registered strictly after it, and the pass offers the node to
no pattern later in the configured list: every offer it records from that
pattern on targets the same index. -/
theorem C2_non_compounding (ast : AnnotatorState) (j : Nat) (m : Option Nat)
    (pat : Pattern) (r : PatternMatchResponse)
    (hget : ast.patterns.get? j = some pat)
    (hcomp : pat.cfg.compounds = false)
    (hnd : ast.matchSet.Nodup)
    (hr : r = .Matching ∨ r = .Completed) :
    ((Annotator._handle_match ast r j m).2.break_flag = true) ∧
    ((Annotator._handle_match ast r j m).1.matchSet =
      (wsAdd ast.matchSet m).take (wsIndexOf (wsAdd ast.matchSet m) m + 1)) ∧
    ((wsAdd ast.matchSet m).get? (wsIndexOf (wsAdd ast.matchSet m) m) = some m) ∧
    (∀ v ∈ (wsAdd ast.matchSet m).drop (wsIndexOf (wsAdd ast.matchSet m) m + 1),
      ∀ (i : Nat) (pm : PatternMatch), v = some i → ast.store.get i = some pm →
        pm.parent < ast.patterns.length →
        ResetFresh (Annotator._handle_match ast r j m).1 pm.parent) ∧
    (∀ (fuel : Nat) (node : DomNode) (depth : Int) (r0 : PatternMatchResponse),
      (Pattern.matches pat node (some depth) ast.store).1 = r →
      ∀ e ∈ (Annotator.matchNodeAux (fuel + 1) ast node depth j r0).2.2, e.1 = j) := by
  have hd : Annotator._handle_match ast r j m = Annotator.handleHit ast r j m := by
    rcases hr with h | h <;> subst h <;> rfl
  obtain ⟨hb, hm, hfr⟩ := handleHit_noncompound ast j m pat r hget hcomp hnd
  rw [hd]
  refine ⟨hb, hm, wsIndexOf_get _ _ (wsAdd_mem _ _), hfr, ?_⟩
  intro fuel node depth r0 hmr e he
  have hloc := matchNodeAux_noncompound_local fuel ast node depth j r0 pat hget hcomp
    (by rw [hmr]; exact hr)
  rcases hloc with h | h <;> rw [h] at he <;> simp at he <;> simp [he]

theorem C2_witness :
    (Annotator._handle_match (Annotator.init [noCompP, tagPatternP]) .Matching 0
        (some 0)).2.break_flag = true ∧
    ∀ e ∈ (Annotator.matchNodeAux 2 (Annotator.init [noCompP, tagPatternP]) nodeP1 0
        0 .Matching).2.2, e.1 = 0 := by
  have h := C2_non_compounding (Annotator.init [noCompP, tagPatternP]) 0 (some 0) _
    .Matching rfl rfl (by decide) (Or.inl rfl)
  exact ⟨h.1, h.2.2.2.2 1 nodeP1 0 .Matching rfl⟩


/-- The wrapped tag child of an Ignored(pre) pattern: offered a node with
undefined depth, it answers Matching exactly on pre tags, never touches the
store (its accumulator is disabled), and keeps its shape. -/
theorem tagPreChild_matchesN (f : Nat) (cst : PatternState)
    (hcst : cst.matchId = none) (n : DomNode) (s : Store) :
    Pattern.matchesN (f + 2)
        (.simple TagPattern.defaultCfg cst "tagName" ["PRE"] true false) n none s =
      (if n.tagName = "PRE" then
        (.Matching,
         .simple TagPattern.defaultCfg
           ⟨(if cst.cur_depth = some (-1) then none else cst.cur_depth),
             cst.applied + 1, cst.matchId⟩ "tagName" ["PRE"] true false, s)
       else
        (.NonMatching,
         .simple TagPattern.defaultCfg cst "tagName" ["PRE"] true false, s)) := by
  have hw : jsWindowExceeded none cst.cur_depth 0 = false := by
    cases cst.cur_depth <;> rfl
  have hsc : (Pattern.simple TagPattern.defaultCfg cst "tagName" ["PRE"] true
      false).unappliedShortCircuit none = false := by
    simp +decide [Pattern.unappliedShortCircuit, Pattern.cfg, Pattern.st,
      TagPattern.defaultCfg, jsLtOpt, hw]
  rw [show f + 2 = (f + 1) + 1 from rfl, Pattern.matchesN_succ, hsc]
  simp only [Bool.false_eq_true, if_false]
  rw [Pattern.runMatcherN_simple]
  by_cases hpre : n.tagName = "PRE"
  · simp [SimplePattern.match_field, getField, matchAnyOption, fieldTest, hpre,
      Pattern.postMatch, Pattern.st, Pattern.setSt, hcst]
  · simp [SimplePattern.match_field, getField, matchAnyOption, fieldTest, hpre,
      Pattern.postMatch]

/-- An Ignored(pre-tag) pattern answers Break exactly on pre-tagged nodes
and NonMatching otherwise, leaves the store untouched, and remains an
Ignored(pre-tag) pattern afterwards. -/
theorem ignoredPre_matchesN (f : Nat) (a : Int) (mid : Option Nat)
    (cst : PatternState) (hcst : cst.matchId = none) (n : DomNode)
    (d : Option Int) (s : Store) :
    Pattern.matchesN (f + 4)
        (.ignored IgnoredPattern.defaultCfg ⟨some (-1), a, mid⟩
          (.simple TagPattern.defaultCfg cst "tagName" ["PRE"] true false)) n d s =
      ((if n.tagName = "PRE" then .Break else .NonMatching),
       .ignored IgnoredPattern.defaultCfg ⟨some (-1), a, mid⟩
         (.simple TagPattern.defaultCfg
           (if n.tagName = "PRE" then
             ⟨(if cst.cur_depth = some (-1) then none else cst.cur_depth),
               cst.applied + 1, cst.matchId⟩ else cst)
           "tagName" ["PRE"] true false), s) := by
  have hsc : (Pattern.ignored IgnoredPattern.defaultCfg ⟨some (-1), a, mid⟩
      (.simple TagPattern.defaultCfg cst "tagName" ["PRE"] true
        false)).unappliedShortCircuit d = false := by
    simp +decide [Pattern.unappliedShortCircuit, Pattern.cfg, Pattern.st,
      IgnoredPattern.defaultCfg, jsLtOpt, curDepthNonneg]
  rw [show f + 4 = (f + 3) + 1 from rfl, Pattern.matchesN_succ, hsc]
  simp only [Bool.false_eq_true, if_false]
  rw [show f + 3 = (f + 2) + 1 from rfl, Pattern.runMatcherN_ignored,
    tagPreChild_matchesN f cst hcst n s]
  by_cases hpre : n.tagName = "PRE"
  · simp [hpre, ignoreMap, Pattern.postMatch]
  · simp [hpre, ignoreMap, Pattern.postMatch]

/-- Pattern.matches of an Ignored(pre-tag) pattern at any offered depth:
Break exactly on pre tags, store untouched, shape preserved. -/
theorem ignoredPre_matches (p : Pattern) (hip : IsIgnoredPre p) (n : DomNode)
    (d : Option Int) (s : Store) :
    (Pattern.matches p n d s).1 =
      (if n.tagName = "PRE" then .Break else .NonMatching) ∧
    (Pattern.matches p n d s).2.2 = s ∧
    IsIgnoredPre (Pattern.matches p n d s).2.1 := by
  obtain ⟨a, mid, cst, hcst, rfl⟩ := hip
  have e : Pattern.matches (.ignored IgnoredPattern.defaultCfg ⟨some (-1), a, mid⟩
      (.simple TagPattern.defaultCfg cst "tagName" ["PRE"] true false)) n d s =
      Pattern.matchesN (2 + 4) (.ignored IgnoredPattern.defaultCfg ⟨some (-1), a, mid⟩
        (.simple TagPattern.defaultCfg cst "tagName" ["PRE"] true false)) n d s := rfl
  rw [e, ignoredPre_matchesN 2 a mid cst hcst n d s]
  refine ⟨rfl, rfl, ?_⟩
  refine ⟨a, mid, _, ?_, rfl⟩
  by_cases hpre : n.tagName = "PRE" <;> simp [hpre, hcst]

/-- _handle_match on a raw Break: nothing changes and the break flag is
raised. -/
theorem Annotator.handle_match_break (ast : AnnotatorState) (j : Nat)
    (m : Option Nat) :
    Annotator._handle_match ast .Break j m = (ast, ⟨.Break, true⟩) := rfl

/-- When the pattern loop reaches an Ignored(pre-tag) pattern at position j
with a pre-tagged node, the pass stops with a Break verdict: the node is
offered to pattern j and to no later pattern, and the working set is left
alone. -/
theorem matchNodeAux_ignoredPre (fuel : Nat) (ast : AnnotatorState)
    (node : DomNode) (depth : Int) (j : Nat) (r0 : PatternMatchResponse)
    (p : Pattern) (hget : ast.patterns.get? j = some p) (hip : IsIgnoredPre p)
    (hpre : node.tagName = "PRE") :
    (Annotator.matchNodeAux (fuel + 1) ast node depth j r0).2.1 = .Break ∧
    (Annotator.matchNodeAux (fuel + 1) ast node depth j r0).2.2 = [(j, node)] ∧
    (Annotator.matchNodeAux (fuel + 1) ast node depth j r0).1.matchSet =
      ast.matchSet := by
  obtain ⟨hresp, hstore, -⟩ := ignoredPre_matches p hip node (some depth) ast.store
  rw [hpre] at hresp
  simp only [if_pos] at hresp
  rw [Annotator.matchNodeAux_succ]
  simp only [hget]
  rw [hresp, Annotator.handle_match_break]
  simp

/-- One unfolding step of the sibling-list traversal. -/
theorem Annotator.applyRecListN_cons (fuel : Nat) (ast : AnnotatorState)
    (n : DomNode) (rest : List DomNode) (md cd : Int) :
    Annotator.applyRecListN (fuel + 1) ast (n :: rest) md cd =
      (let r := Annotator._match_node ast n cd
       let d := if r.2.1 ≠ .Break ∧ (md ≤ 0 ∨ cd + 1 ≤ md) then
           Annotator.applyRecListN fuel r.1 n.children md (cd + 1)
         else (r.1, [])
       let t := Annotator.applyRecListN fuel d.1 rest md cd
       (t.1, r.2.2 ++ d.2 ++ t.2)) := rfl

/-- A Break verdict on a node cuts its whole subtree out of the traversal:
its children are never visited (they contribute no offers and no state
change) and the walk resumes directly with the following siblings. -/
theorem Annotator.applyRecListN_break (fuel : Nat) (ast : AnnotatorState)
    (n : DomNode) (rest : List DomNode) (md cd : Int)
    (h : (Annotator._match_node ast n cd).2.1 = .Break) :
    Annotator.applyRecListN (fuel + 1) ast (n :: rest) md cd =
      ((Annotator.applyRecListN fuel (Annotator._match_node ast n cd).1 rest md
          cd).1,
       (Annotator._match_node ast n cd).2.2 ++
         (Annotator.applyRecListN fuel (Annotator._match_node ast n cd).1 rest md
           cd).2) := by
  rw [Annotator.applyRecListN_cons]
  simp [h]


/-- C3: a Subtree-Exclusion (Ignored) pattern wrapping Tag{"pre"} fences off
the subtree of every pre-tagged node.  (i) match_ignore upgrades a child
response of Incomplete, Matching or Break to Break; (ii) an Ignored(pre)
pattern answers Break exactly on pre-tagged nodes; (iii) a node pass hitting
an Ignored(pre) pattern at position j on a pre node ends with a Break
verdict, the node having been offered to pattern j and to no later pattern;
(iv) a Break verdict for a node makes the traversal skip its children
entirely and resume with its siblings; (v) end to end, over a tree with a
pre block fencing a span followed by a paragraph, the recorded offers are
exactly pre and the paragraph: the span inside the pre is never offered to
any pattern. -/
theorem C3_subtree_exclusion :
    (∀ (q : Pattern) (el : DomNode) (s : Store),
      ((Pattern.matches q el none s).1 = .Incomplete ∨
       (Pattern.matches q el none s).1 = .Matching ∨
       (Pattern.matches q el none s).1 = .Break) →
      (IgnoredPattern.match_ignore q el s).1 = .Break) ∧
    (∀ (p : Pattern), IsIgnoredPre p → ∀ (n : DomNode) (d : Int) (s : Store),
      (Pattern.matches p n (some d) s).1 =
        (if n.tagName = "PRE" then .Break else .NonMatching)) ∧
    (∀ (fuel : Nat) (ast : AnnotatorState) (node : DomNode) (depth : Int)
      (j : Nat) (r0 : PatternMatchResponse) (p : Pattern),
      ast.patterns.get? j = some p → IsIgnoredPre p → node.tagName = "PRE" →
      (Annotator.matchNodeAux (fuel + 1) ast node depth j r0).2.1 = .Break ∧
      (Annotator.matchNodeAux (fuel + 1) ast node depth j r0).2.2 =
        [(j, node)]) ∧
    (∀ (fuel : Nat) (ast : AnnotatorState) (n : DomNode) (rest : List DomNode)
      (md cd : Int), (Annotator._match_node ast n cd).2.1 = .Break →
      Annotator.applyRecListN (fuel + 1) ast (n :: rest) md cd =
        ((Annotator.applyRecListN fuel (Annotator._match_node ast n cd).1 rest
            md cd).1,
         (Annotator._match_node ast n cd).2.2 ++
           (Annotator.applyRecListN fuel (Annotator._match_node ast n cd).1 rest
             md cd).2)) ∧
    ((Annotator.apply [ignoredPre, tagPatternP] rootC3 (-1)).2.1 =
      [(0, nodePre), (0, nodeP1), (1, nodeP1)]) := by
  refine ⟨?_, ?_, ?_, ?_, rfl⟩
  · intro q el s h
    have e : (IgnoredPattern.match_ignore q el s).1 =
        ignoreMap (Pattern.matches q el none s).1 := rfl
    rw [e]
    rcases h with h | h | h <;> rw [h] <;> rfl
  · intro p hip n d s
    exact (ignoredPre_matches p hip n (some d) s).1
  · intro fuel ast node depth j r0 p hget hip hpre
    have h := matchNodeAux_ignoredPre fuel ast node depth j r0 p hget hip hpre
    exact ⟨h.1, h.2.1⟩
  · intro fuel ast n rest md cd h
    exact Annotator.applyRecListN_break fuel ast n rest md cd h

theorem C3_witness :
    (Annotator.matchNodeAux 1 (Annotator.init [ignoredPre, tagPatternP]) nodePre
        0 0 .Matching).2.1 = .Break ∧
    (Annotator.matchNodeAux 1 (Annotator.init [ignoredPre, tagPatternP]) nodePre
        0 0 .Matching).2.2 = [(0, nodePre)] := by
  exact C3_subtree_exclusion.2.2.1 0 (Annotator.init [ignoredPre, tagPatternP])
    nodePre 0 0 .Matching _ rfl ⟨0, some 0, initSt, rfl, rfl⟩ rfl


/-- listModify through a complete-preserving edit keeps every accumulator
open. -/
theorem listModify_complete_pres (l : List PatternMatch) (i : Nat)
    (f : PatternMatch → PatternMatch) (hf : ∀ q, (f q).complete = q.complete)
    (h : ∀ pm ∈ l, pm.complete = false) :
    ∀ pm ∈ listModify l i f, pm.complete = false := by
  induction l generalizing i with
  | nil => intro pm hpm; simp [listModify] at hpm
  | cons m rest ih =>
      intro pm hpm
      cases i with
      | zero =>
          simp only [listModify, List.mem_cons] at hpm
          rcases hpm with h1 | h1
          · rw [h1, hf]; exact h m (by simp)
          · exact h pm (by simp [h1])
      | succ i =>
          simp only [listModify, List.mem_cons] at hpm
          rcases hpm with h1 | h1
          · exact h pm (by simp [h1])
          · exact ih i (fun q hq => h q (by simp [hq])) pm h1

/-- pushNode only appends to an accumulator's node list: openness is
preserved. -/
theorem Store.pushNode_allOpen (s : Store) (i : Nat) (n : DomNode)
    (h : Store.allOpen s) : Store.allOpen (s.pushNode i n) := by
  intro pm hpm
  exact listModify_complete_pres s.data i
    (fun q => q.push (MatchItem.node n)) (fun q => rfl) h pm hpm

/-- alloc creates its accumulator open: openness is preserved. -/
theorem Store.alloc_allOpen (s : Store) (parent : Nat) (h : Store.allOpen s) :
    Store.allOpen (s.alloc parent).2 := by
  intro pm hpm
  have hpm2 : pm ∈ s.data ++ [⟨[], false, parent⟩] := hpm
  rcases List.mem_append.mp hpm2 with h1 | h1
  · exact h pm h1
  · simp at h1; rw [h1]

/-- resetState at most reallocates: openness is preserved. -/
theorem PatternState.resetState_allOpen (st : PatternState) (idx : Nat)
    (s : Store) (h : Store.allOpen s) :
    Store.allOpen (st.resetState idx s).2 := by
  cases hm : st.matchId with
  | none => simp only [PatternState.resetState, hm]; exact h
  | some i =>
      simp only [PatternState.resetState, hm]
      exact Store.alloc_allOpen s idx h

/-- Pattern.reset keeps the store all-open, the cascading AnyPattern
override included: every accumulator it installs is allocated open
(size-bounded induction over the pattern tree). -/
theorem reset_allOpenAux (n : Nat) :
    (∀ (p : Pattern), Pattern.psize p ≤ n → ∀ (idx : Nat) (s : Store),
      Store.allOpen s → Store.allOpen (Pattern.reset p idx s).2.2) ∧
    (∀ (l : List Pattern), Pattern.psizeList l ≤ n → ∀ (idx : Nat) (s : Store),
      Store.allOpen s → Store.allOpen (Pattern.resetList l idx s).2) := by
  induction n with
  | zero =>
      constructor
      · intro p hp
        have h2 := Pattern.psize_pos p
        omega
      · intro l hl
        have h2 := Pattern.psizeList_pos l
        omega
  | succ n ih =>
      obtain ⟨ihp, ihl⟩ := ih
      constructor
      · intro p hp idx s h
        cases p with
        | simple cfg st a b c d => exact PatternState.resetState_allOpen st idx s h
        | sequence cfg st pats reps cur counts =>
            exact PatternState.resetState_allOpen st idx s h
        | ignored cfg st pat => exact PatternState.resetState_allOpen st idx s h
        | exceptPat cfg st m mm => exact PatternState.resetState_allOpen st idx s h
        | anyPat cfg st pats =>
            rw [Pattern.reset_anyPat]
            have hl2 : Pattern.psizeList pats ≤ n := by
              have hp2 : 1 + Pattern.psizeList pats ≤ n + 1 := hp
              omega
            have hop := ihl pats hl2 idx s h
            intro pm hpm
            have hpm2 : pm ∈ (Pattern.resetList pats idx s).2.data ++
                [⟨(Pattern.resetList pats idx s).1.map
                   (fun q => MatchItem.sub q.st.matchId), false, idx⟩] := hpm
            rcases List.mem_append.mp hpm2 with h1 | h1
            · exact hop pm h1
            · simp at h1
              rw [h1]
      · intro l hl idx s h
        cases l with
        | nil => exact h
        | cons p rest =>
            have hl2 : 1 + Pattern.psize p + Pattern.psizeList rest ≤ n + 1 := hl
            have hp : Pattern.psize p ≤ n := by omega
            have hr : Pattern.psizeList rest ≤ n := by omega
            exact ihl rest hr idx _ (ihp p hp idx s h)

/-- Pattern.reset keeps the store all-open. -/
theorem Pattern.reset_allOpen (p : Pattern) (idx : Nat) (s : Store)
    (h : Store.allOpen s) : Store.allOpen (p.reset idx s).2.2 :=
  (reset_allOpenAux (Pattern.psize p)).1 p le_rfl idx s h

/-- resetPatternAt keeps the store all-open. -/
theorem AnnotatorState.resetPatternAt_allOpen (ast : AnnotatorState) (j : Nat)
    (h : Store.allOpen ast.store) :
    Store.allOpen (ast.resetPatternAt j).store := by
  unfold AnnotatorState.resetPatternAt
  cases hg : ast.patterns.get? j with
  | none => simp only [hg]; exact h
  | some p => simp only [hg]; exact Pattern.reset_allOpen p j ast.store h

/-- killOne keeps the store all-open. -/
theorem AnnotatorState.killOne_allOpen (ast : AnnotatorState) (m : Option Nat)
    (h : Store.allOpen ast.store) : Store.allOpen (ast.killOne m).store := by
  unfold AnnotatorState.killOne
  cases m with
  | none => exact h
  | some i =>
      cases hg : ast.store.get i with
      | none => simp only [hg]; exact h
      | some pm =>
          simp only [hg]
          exact AnnotatorState.resetPatternAt_allOpen ast pm.parent h

/-- The kill loop keeps the store all-open. -/
theorem killFold_allOpen (l : List (Option Nat)) (ast : AnnotatorState)
    (h : Store.allOpen ast.store) :
    Store.allOpen (l.foldl AnnotatorState.killOne ast).store := by
  induction l generalizing ast with
  | nil => exact h
  | cons m rest ih => exact ih _ (AnnotatorState.killOne_allOpen ast m h)

/-- killAfter keeps the store all-open. -/
theorem AnnotatorState.killAfter_allOpen (ast : AnnotatorState) (ind : Nat)
    (h : Store.allOpen ast.store) : Store.allOpen (ast.killAfter ind).store :=
  killFold_allOpen _ ast h

/-- handleHit keeps the store all-open. -/
theorem Annotator.handleHit_allOpen (ast : AnnotatorState)
    (resp : PatternMatchResponse) (j : Nat) (m : Option Nat)
    (h : Store.allOpen ast.store) :
    Store.allOpen (Annotator.handleHit ast resp j m).1.store := by
  rw [Annotator.handleHit_state_eq]
  apply AnnotatorState.resetPatternAt_allOpen
  split
  · exact h
  · exact AnnotatorState.killAfter_allOpen _ _ h

/-- _handle_match keeps the store all-open, whatever the response. -/
theorem Annotator.handle_match_allOpen (ast : AnnotatorState)
    (r : PatternMatchResponse) (j : Nat) (m : Option Nat)
    (h : Store.allOpen ast.store) :
    Store.allOpen (Annotator._handle_match ast r j m).1.store := by
  cases r with
  | NonMatching => exact AnnotatorState.resetPatternAt_allOpen ast j h
  | Incomplete => exact h
  | Completed => exact Annotator.handleHit_allOpen ast .Completed j m h
  | Matching => exact Annotator.handleHit_allOpen ast .Matching j m h
  | Break => exact h
  | Unapplied => exact h

/-- The whole matcher recursion keeps the store all-open: the only store
writes are pushNode (on Matching or Incomplete) and none of them touches a
complete flag. -/
theorem open_store (fuel : Nat) :
    (∀ (p : Pattern) (n : DomNode) (d : Option Int) (s : Store),
      Store.allOpen s → Store.allOpen (Pattern.matchesN fuel p n d s).2.2) ∧
    (∀ (p : Pattern) (n : DomNode) (d : Option Int) (s : Store),
      Store.allOpen s → Store.allOpen (Pattern.runMatcherN fuel p n d s).2.2) ∧
    (∀ (todo : List Pattern) (reps : List (Int × Int)) (counts : Int)
      (n : DomNode) (d : Option Int) (s : Store), Store.allOpen s →
      Store.allOpen (Pattern.seqAuxN fuel todo reps counts n d s).2.2.2.2) ∧
    (∀ (todo : List Pattern) (resp : PatternMatchResponse) (n : DomNode)
      (d : Option Int) (s : Store), Store.allOpen s →
      Store.allOpen (Pattern.anyAuxN fuel todo resp n d s).2.2) := by
  induction fuel with
  | zero =>
      exact ⟨fun p n d s h => h, fun p n d s h => h,
        fun todo reps counts n d s h => h, fun todo resp n d s h => h⟩
  | succ f ih =>
      obtain ⟨ihm, ihr, ihs, iha⟩ := ih
      refine ⟨?_, ?_, ?_, ?_⟩
      · intro p n d s h
        rw [Pattern.matchesN_succ]
        split
        · exact h
        · simp only
          rw [Pattern.postMatch_store]
          split
          · split
            · exact Store.pushNode_allOpen _ _ _ (ihr p n d s h)
            · exact ihr p n d s h
          · exact ihr p n d s h
      · intro p n d s h
        cases p with
        | simple cfg st fn fo e a => exact h
        | sequence cfg st pats reps cur counts =>
            rw [Pattern.runMatcherN_sequence]
            exact ihs (pats.drop cur) _ _ n d s h
        | ignored cfg st pat =>
            rw [Pattern.runMatcherN_ignored]
            exact ihm pat n none s h
        | exceptPat cfg st m mm =>
            rw [Pattern.runMatcherN_exceptPat]
            exact ihm m n d s h
        | anyPat cfg st pats =>
            rw [Pattern.runMatcherN_anyPat]
            exact iha pats .Matching n d s h
      · intro todo reps counts n d s h
        cases todo with
        | nil => exact h
        | cons pattern rest =>
            rw [Pattern.seqAuxN_cons]
            simp only
            have h1 := ihm pattern n d s h
            split
            · split
              · exact h1
              · exact ihs rest _ _ n d _ h1
            · split
              · split <;> exact h1
              · exact h1
      · intro todo resp n d s h
        cases todo with
        | nil => exact h
        | cons pattern rest =>
            rw [Pattern.anyAuxN_cons]
            simp only
            have h1 := ihm pattern n d s h
            split
            · exact iha rest _ n d _ h1
            · exact h1

/-- Pattern.matches keeps the store all-open. -/
theorem Pattern.matches_allOpen (p : Pattern) (n : DomNode) (d : Option Int)
    (s : Store) (h : Store.allOpen s) :
    Store.allOpen (Pattern.matches p n d s).2.2 :=
  (open_store (Pattern.fuelFor p)).1 p n d s h

/-- One offer-then-classify step of the pattern loop keeps the store
all-open. -/
theorem passStep_allOpen (ast : AnnotatorState) (pat : Pattern) (node : DomNode)
    (dep : Option Int) (j : Nat) (h : Store.allOpen ast.store) :
    Store.allOpen ((Annotator._handle_match
      (AnnotatorState.mk (ast.patterns.set j (pat.matches node dep ast.store).2.1)
        (pat.matches node dep ast.store).2.2 ast.matchSet)
      (pat.matches node dep ast.store).1 j
      (pat.matches node dep ast.store).2.1.st.matchId).1).store :=
  Annotator.handle_match_allOpen _ _ _ _
    (Pattern.matches_allOpen pat node dep ast.store h)

/-- The pattern loop keeps the store all-open. -/
theorem matchNodeAux_allOpen (fuel : Nat) : ∀ (ast : AnnotatorState)
    (node : DomNode) (depth : Int) (j : Nat) (r0 : PatternMatchResponse),
    Store.allOpen ast.store →
    Store.allOpen (Annotator.matchNodeAux fuel ast node depth j r0).1.store := by
  induction fuel with
  | zero => intro ast node depth j r0 h; exact h
  | succ f ih =>
      intro ast node depth j r0 h
      rw [Annotator.matchNodeAux_succ]
      cases hg : ast.patterns.get? j with
      | none => simp only [hg]; exact h
      | some pat =>
          simp only [hg]
          split
          · split
            · exact passStep_allOpen _ _ _ _ _ h
            · split
              · exact passStep_allOpen _ _ _ _ _ (passStep_allOpen _ _ _ _ _ h)
              · exact ih _ node depth (j + 1) _
                  (passStep_allOpen _ _ _ _ _ (passStep_allOpen _ _ _ _ _ h))
          · split
            · exact passStep_allOpen _ _ _ _ _ h
            · exact ih _ node depth (j + 1) _ (passStep_allOpen _ _ _ _ _ h)

/-- A node pass keeps the store all-open. -/
theorem matchNode_allOpen (ast : AnnotatorState) (node : DomNode) (depth : Int)
    (h : Store.allOpen ast.store) :
    Store.allOpen (Annotator._match_node ast node depth).1.store :=
  matchNodeAux_allOpen ast.patterns.length ast node depth 0 .Matching h

/-- The traversal keeps the store all-open. -/
theorem applyRecListN_allOpen (fuel : Nat) : ∀ (ast : AnnotatorState)
    (nodes : List DomNode) (md cd : Int), Store.allOpen ast.store →
    Store.allOpen (Annotator.applyRecListN fuel ast nodes md cd).1.store := by
  induction fuel with
  | zero => intro ast nodes md cd h; exact h
  | succ f ih =>
      intro ast nodes md cd h
      cases nodes with
      | nil => exact h
      | cons n rest =>
          rw [Annotator.applyRecListN_cons]
          simp only
          split
          · exact ih _ rest md cd
              (ih _ n.children md (cd + 1) (matchNode_allOpen ast n cd h))
          · exact ih _ rest md cd (matchNode_allOpen ast n cd h)

/-- The initializer produces an all-open store. -/
theorem initAux_allOpen (ps : List Pattern) : ∀ (j : Nat) (s : Store),
    Store.allOpen s → Store.allOpen (Annotator.initAux ps j s).2 := by
  induction ps with
  | nil => intro j s h; exact h
  | cons p rest ih =>
      intro j s h
      simp only [Annotator.initAux]
      split
      · exact ih (j + 1) _ (Store.alloc_allOpen s j h)
      · exact ih (j + 1) _ h

/-- The freshly initialised engine has an all-open store. -/
theorem init_allOpen (ps : List Pattern) :
    Store.allOpen (Annotator.init ps).store := by
  have h0 : Store.allOpen (⟨[]⟩ : Store) := by
    intro pm hpm
    exact absurd hpm (List.not_mem_nil pm)
  exact initAux_allOpen ps 0 ⟨[]⟩ h0

/-- After the whole apply traversal, every accumulator ever allocated is
still open: the engine never invokes finalize. -/
theorem Annotator.apply_allOpen (ps : List Pattern) (root : DomNode) (md : Int) :
    Store.allOpen (Annotator.apply ps root md).1.store := by
  have e : (Annotator.apply ps root md).1 =
      (Annotator._apply_rec (Annotator.init ps) root md 0).1 := rfl
  rw [e]
  unfold Annotator._apply_rec
  split
  · exact applyRecListN_allOpen _ _ _ _ _ (init_allOpen ps)
  · exact init_allOpen ps

theorem Annotator.applyLoop_nil (a : AnnotatorState) :
    Annotator.applyLoop a [] = some [] := rfl

theorem Annotator.applyLoop_cons (a : AnnotatorState) (m : Option Nat)
    (rest : List (Option Nat)) :
    Annotator.applyLoop a (m :: rest) =
      (match m with
       | none => none
       | some i =>
          match a.store.get i with
          | none => none
          | some pm =>
              match a.patterns.get? pm.parent with
              | none => none
              | some p =>
                  match Annotator.applyLoop a rest with
                  | none => none
                  | some evs => some ((p.cfg.transform, pm) :: evs)) := rfl

/-- Every accumulator the final loop hands to a transform comes out of an
all-open store with its complete flag false. -/
theorem applyLoop_open (a : AnnotatorState) (h : Store.allOpen a.store) :
    ∀ (ws : List (Option Nat)) (evs : List (Option Nat × PatternMatch)),
      Annotator.applyLoop a ws = some evs → ∀ ev ∈ evs, ev.2.complete = false := by
  intro ws
  induction ws with
  | nil =>
      intro evs he ev hev
      rw [Annotator.applyLoop_nil] at he
      injection he with he
      subst he
      simp at hev
  | cons m rest ih =>
      intro evs he ev hev
      rw [Annotator.applyLoop_cons] at he
      cases m with
      | none => exact absurd he (by simp)
      | some i =>
          simp only at he
          cases hsg : a.store.get i with
          | none =>
              simp only [hsg] at he
              exact Option.noConfusion he
          | some pm =>
              simp only [hsg] at he
              cases hpg : a.patterns.get? pm.parent with
              | none =>
                  simp only [hpg] at he
                  exact Option.noConfusion he
              | some p =>
                  simp only [hpg] at he
                  cases hrec : Annotator.applyLoop a rest with
                  | none =>
                      simp only [hrec] at he
                      exact Option.noConfusion he
                  | some evs1 =>
                      simp only [hrec] at he
                      injection he with he
                      subst he
                      rcases List.mem_cons.mp hev with h1 | h1
                      · rw [h1]
                        exact h pm (List.get?_mem
                          (show a.store.data.get? i = some pm from hsg))
                      · exact ih evs1 hrec ev h1

/-- The final loop of apply succeeds exactly by invoking, in working-set
order, the transform of the owner of every surviving accumulator. -/
theorem applyLoop_spec (a : AnnotatorState) :
    ∀ (ws : List (Option Nat)) (evs : List (Option Nat × PatternMatch)),
      Annotator.applyLoop a ws = some evs →
      evs.length = ws.length ∧
      ∀ (k i : Nat), ws.get? k = some (some i) →
        ∃ pm p, a.store.get i = some pm ∧ a.patterns.get? pm.parent = some p ∧
          evs.get? k = some (p.cfg.transform, pm) := by
  intro ws
  induction ws with
  | nil =>
      intro evs he
      rw [Annotator.applyLoop_nil] at he
      injection he with he
      subst he
      exact ⟨rfl, fun k i hk => by simp at hk⟩
  | cons m rest ih =>
      intro evs he
      rw [Annotator.applyLoop_cons] at he
      cases m with
      | none => exact absurd he (by simp)
      | some i =>
          simp only at he
          cases hsg : a.store.get i with
          | none =>
              simp only [hsg] at he
              exact Option.noConfusion he
          | some pm =>
              simp only [hsg] at he
              cases hpg : a.patterns.get? pm.parent with
              | none =>
                  simp only [hpg] at he
                  exact Option.noConfusion he
              | some p =>
                  simp only [hpg] at he
                  cases hrec : Annotator.applyLoop a rest with
                  | none =>
                      simp only [hrec] at he
                      exact Option.noConfusion he
                  | some evs1 =>
                      simp only [hrec] at he
                      injection he with he
                      subst he
                      obtain ⟨hl, hp⟩ := ih evs1 hrec
                      refine ⟨by simp [hl], ?_⟩
                      intro k i2 hk
                      cases k with
                      | zero =>
                          simp at hk
                          subst hk
                          exact ⟨pm, p, hsg, hpg, rfl⟩
                      | succ k =>
                          simp only [List.get?_cons_succ] at hk ⊢
                          exact hp k i2 hk

/-- C10: the engine never closes an accumulator, and apply transforms every
surviving accumulator, partial ones included.  (i) push leaves the complete
flag alone, and finalize — the one operation that sets it — is defined but
never invoked by the engine, so (ii) after the whole apply traversal every
accumulator in the store still has complete = false; (iii) the final loop
of apply succeeds exactly by invoking, in working-set order, the configured
transform of the owning pattern of every accumulator remaining in the
working set; (iv) hence every delivered transform event carries an
accumulator whose complete flag is false; (v) concretely, a sequence
demanding two paragraphs that saw only one — registered by an Incomplete
response and never Matching or Completed — still has its partial
one-paragraph accumulator handed to its transform, open. -/
theorem C10_open_partial_transforms :
    (∀ (pm : PatternMatch) (it : MatchItem),
      (PatternMatch.push pm it).complete = pm.complete) ∧
    (∀ (ps : List Pattern) (root : DomNode) (md : Int),
      Store.allOpen (Annotator.apply ps root md).1.store) ∧
    (∀ (a : AnnotatorState) (ws : List (Option Nat))
      (evs : List (Option Nat × PatternMatch)),
      Annotator.applyLoop a ws = some evs →
      evs.length = ws.length ∧
      ∀ (k i : Nat), ws.get? k = some (some i) →
        ∃ pm p, a.store.get i = some pm ∧ a.patterns.get? pm.parent = some p ∧
          evs.get? k = some (p.cfg.transform, pm)) ∧
    (∀ (ps : List Pattern) (root : DomNode) (md : Int)
      (evs : List (Option Nat × PatternMatch)),
      (Annotator.apply ps root md).2.2 = some evs →
      ∀ ev ∈ evs, ev.2.complete = false) ∧
    ((Annotator.apply [seqP2] rootC10 (-1)).2.2 =
      some [(some 1, ⟨[MatchItem.node nodeP1], false, 0⟩)]) := by
  refine ⟨fun pm it => rfl, Annotator.apply_allOpen, applyLoop_spec, ?_, rfl⟩
  intro ps root md evs he ev hev
  exact applyLoop_open (Annotator.apply ps root md).1
    (Annotator.apply_allOpen ps root md)
    (Annotator.apply ps root md).1.matchSet evs he ev hev

theorem C10_witness :
    ((some 1 : Option Nat),
      (⟨[MatchItem.node nodeP1], false, 0⟩ : PatternMatch)).2.complete =
        false := by
  exact C10_open_partial_transforms.2.2.2.1 [seqP2] rootC10 (-1)
    [(some 1, ⟨[MatchItem.node nodeP1], false, 0⟩)]
    C10_open_partial_transforms.2.2.2.2 _ (by simp)

end AnnotateMD
